import Mathlib

/-!
# HelloMCP: the protocol dispatch core of `mcpp`

A shallow embedding of `src/mcpp/utils.h`, `src/mcpp/tool.h` and
`src/mcpp/server.h`, followed by theorems about request routing, the tool
registry and the response envelopes.

Conventions of the embedding.

* A `std::string` is a Lean `String`; its bytes are its UTF-8 code units
  (`nlohmann::json::parse` only yields valid UTF-8 text).
* `nlohmann::json` is the inductive type `Json`; an object keeps its members
  sorted by key, as the `std::map` behind it does.
* Exceptions, failed `JSON_ASSERT`s and `exit` are explicit results (`Stop`).
* Calls that leave the server (`Transport::Send`, `Tool::Execute`) are
  recorded, in order, as `Event`s.
* `size_t` is 64 bits wide and plain `char` is signed, as on the x64 Windows
  target of `src/HelloMCP/main.cpp`.
-/

namespace HelloMCP

/-! ## Strings and `utils.h` -/

/-- UTF-8 code units of one character. -/
def utf8EncodeChar (c : Char) : List Nat :=
  let n := c.toNat
  if n < 0x80 then [n]
  else if n < 0x800 then [0xC0 + n / 64, 0x80 + n % 64]
  else if n < 0x10000 then [0xE0 + n / 4096, 0x80 + n / 64 % 64, 0x80 + n % 64]
  else [0xF0 + n / 262144, 0x80 + n / 4096 % 64, 0x80 + n / 64 % 64, 0x80 + n % 64]

/-- UTF-8 code units of a character sequence. -/
def utf8Encode : List Char → List Nat
  | [] => []
  | c :: cs => utf8EncodeChar c ++ utf8Encode cs

/-- Bytes of a `std::string`, as `std::data(x)` exposes them (the terminating
NUL is the end of the list). -/
def data (x : String) : List Nat := utf8Encode x.data

/-- Conversion of a byte read through `const char*` to `size_t`: the `char` is
promoted to `int` (sign-extending bytes from 0x80 up) and then converted to the
unsigned 64-bit type. -/
def charToSizeT (b : Nat) : Nat :=
  if b < 128 then b else 2 ^ 64 - 256 + b

/-- Function `fnv1a_hash(str, value)` of `utils.h`:
`*str ? fnv1a_hash(str + 1, (value ^ *str) * 1099511628211ULL) : value`,
in 64-bit unsigned arithmetic. Reading stops at the first NUL byte. -/
def fnv1a_hash : List Nat → Nat → Nat
  | [], value => value
  | c :: str, value =>
    if c = 0 then value
    else fnv1a_hash str (Nat.xor value (charToSizeT c) * 1099511628211 % 2 ^ 64)

/-- Scrutinee of `S_SWITCH(x)`: `fnv1a_hash(std::data(x))` with the default
starting value. -/
def S_SWITCH (x : String) : Nat := fnv1a_hash (data x) 14695981039346656037

/-- Label of `S_CASE(x)`: `fnv1a_hash(x)` of a string literal. -/
def S_CASE (x : String) : Nat := fnv1a_hash (data x) 14695981039346656037

/-- Method `std::string::starts_with`. -/
def starts_with (s pre : String) : Bool := (data pre).isPrefixOf (data s)

/-- Byte-wise lexicographic order of `std::string`, the key order of the
`std::map` inside a JSON object. -/
def bytesLt : List Nat → List Nat → Bool
  | _, [] => false
  | [], _ :: _ => true
  | a :: as, b :: bs => decide (a < b) || (decide (a = b) && bytesLt as bs)

/-! ## The JSON document type -/

/-- Values of `nlohmann::json`. A floating-point number carries its bit
pattern, which the server never inspects. -/
inductive Json where
  | null
  | boolean (b : Bool)
  | number (n : Int)
  | number_float (bits : Nat)
  | string (s : String)
  | array (elements : List Json)
  | object (members : List (String × Json))

instance : Inhabited Json := ⟨Json.null⟩

/-- Reasons for which control leaves the code abnormally. -/
inductive Failure where
  | parse_error
  | type_error (id : Nat)
  | assertion
  | runtime_error (what : String)
  deriving DecidableEq

/-- Ways in which the run loop stops. -/
inductive Stop where
  | exit (code : Int)
  | failure (e : Failure)
  deriving DecidableEq

namespace Json

/-- Lookup in the member map of an object (`std::map::find`). -/
def find : List (String × Json) → String → Option Json
  | [], _ => none
  | (k, v) :: rest, key => if key = k then some v else find rest key

/-- Assignment `m[key] = v` on the member map of an object: the value under
`key` is replaced, or a new member is placed at its sorted position. -/
def assign : List (String × Json) → String → Json → List (String × Json)
  | [], key, v => [(key, v)]
  | (k, w) :: rest, key, v =>
    if key = k then (key, v) :: rest
    else if bytesLt (data key) (data k) then (key, v) :: (k, w) :: rest
    else (k, w) :: assign rest key v

/-- Construction of an object from a braced list of key/value pairs: each pair
is emplaced in turn (a key already present keeps its value). -/
def mkObject (init : List (String × Json)) : Json :=
  Json.object (init.foldl (fun m kv => match find m kv.1 with
    | some _ => m
    | none => assign m kv.1 kv.2) [])

/-- Read access `j[key]` on a `const` document: a `type_error` (305) unless
`j` is an object, and a failed `JSON_ASSERT` when the key is absent. -/
def get_const (j : Json) (key : String) : Except Failure Json :=
  match j with
  | object members =>
    match find members key with
    | some v => Except.ok v
    | none => Except.error Failure.assertion
  | _ => Except.error (Failure.type_error 305)

/-- Statement `j[key] = v` on a mutable document: `null` first becomes an
empty object; any other non-object raises `type_error` (305). -/
def set (j : Json) (key : String) (v : Json) : Except Failure Json :=
  match j with
  | null => Except.ok (object [(key, v)])
  | object members => Except.ok (object (assign members key v))
  | _ => Except.error (Failure.type_error 305)

/-- Conversion `j.get<std::string>()`: `type_error` (302) unless `j` is a
string. -/
def get_string (j : Json) : Except Failure String :=
  match j with
  | string s => Except.ok s
  | _ => Except.error (Failure.type_error 302)

/-- Field of a document, `none` when absent or when the document is not an
object. -/
def field? (j : Json) (key : String) : Option Json :=
  match j with
  | object members => find members key
  | _ => none

/-- Whether a document is an object holding `key` (`j.contains(key)`). -/
def contains (j : Json) (key : String) : Bool := (field? j key).isSome

end Json

/-! ## `tool.h` -/

/-- Class `Tool`. The private members of a tool are the component `state`.
The `const` methods `Description()` and `InputSchema()` read them, and the
non-`const` `Execute` may change them and returns a document. The server calls
`Name()` in `AddTool` only, on the tool as it is handed over, and keeps the
string as the key; `Name` is that string. -/
structure Tool (σ : Type) where
  Name : String
  Description : σ → String
  InputSchema : σ → Json
  state : σ
  Execute : σ → Json → Json × σ

/-- Helper `Tool::Error(code, message)`. -/
def Tool.Error (code : Int) (message : String) : Json :=
  let error := Json.mkObject [("code", Json.number code), ("message", Json.string message)]
  Json.mkObject [("error", error)]

/-- Helper `Tool::Result(text)`. -/
def Tool.Result (text : String) : Json :=
  let content := Json.mkObject [("type", Json.string "text"), ("text", Json.string text)]
  let result := Json.mkObject [("content", Json.array [content])]
  Json.mkObject [("result", result)]

/-! ## `server.h` -/

/-- Data members of class `Server`. The member `m_tools` lists the entries of
the `std::unordered_map` in the order in which they were inserted; the order in
which the map is traversed is given separately by a `Layout`. -/
structure Server (σ : Type) where
  m_name : String
  m_version : String
  m_capabilities : Json
  m_tools : List (String × Tool σ)

/-- Traversal order of `std::unordered_map`, which the language leaves to the
standard library: `position keys k` ranks key `k` among the keys inserted so
far (`keys`, oldest first); the map is traversed by increasing rank, keys of
equal rank oldest first. -/
structure Layout where
  position : List String → String → Nat

/-- Calls that leave the server, in the order in which they are made. -/
inductive Event where
  | Send (response : Json)
  | Execute (tool : String) (params : Json)

/-- Result of running a piece of server code: the server afterwards, the
calls made, and either the returned value or the way the code stopped. -/
structure Effect (σ α : Type) where
  server : Server σ
  events : List Event
  result : Except Stop α

namespace Server

variable {σ : Type}

/-- Constructor `Server(name, version, capabilities)`. -/
def new (name version : String) (capabilities : Json) : Server σ :=
  { m_name := name, m_version := version, m_capabilities := capabilities, m_tools := [] }

/-- Lookup `m_tools.find(name)`. -/
def find : List (String × Tool σ) → String → Option (Tool σ)
  | [], _ => none
  | (k, t) :: rest, name => if name = k then some t else find rest name

/-- Insertion `m_tools.emplace(name, tool)`: the map afterwards and the flag
`rv.second`, false when the key was already present (the map is then left as
it was). -/
def emplace (m : List (String × Tool σ)) (name : String) (tool : Tool σ) :
    List (String × Tool σ) × Bool :=
  match find m name with
  | some _ => (m, false)
  | none => (m ++ [(name, tool)], true)

/-- Entries of `m_tools` in traversal order (`for (const auto& [name, tool] : m_tools)`). -/
def traverse (lay : Layout) (m : List (String × Tool σ)) : List (String × Tool σ) :=
  let keys := m.map Prod.fst
  List.insertionSort (fun a b => lay.position keys a.1 ≤ lay.position keys b.1) m

/-- Replacement of the tool stored under `name` (the effect of a non-`const`
call through `itr->second`). -/
def store : List (String × Tool σ) → String → Tool σ → List (String × Tool σ)
  | [], _, _ => []
  | (k, t) :: rest, name, tool =>
    if name = k then (k, tool) :: rest else (k, t) :: store rest name tool

/-- Method `Server::AddTool`. -/
def AddTool (s : Server σ) (tool : Tool σ) : Effect σ Unit :=
  let name := tool.Name
  let rv := emplace s.m_tools name tool
  let s1 := { s with m_tools := rv.1 }
  if !rv.2 then
    ⟨s1, [], Except.error (Stop.failure
      (Failure.runtime_error ("Tool with name '" ++ name ++ "' already exists.")))⟩
  else
    ⟨s1, [], Except.ok ()⟩

/-- Method `Server::Error`. -/
def Error (code : Int) (message : String) : Json :=
  let error := Json.mkObject [("code", Json.number code), ("message", Json.string message)]
  Json.mkObject [("error", error)]

/-- Method `Server::Initialize`. -/
def Initialize (s : Server σ) : Json :=
  let serverInfo := Json.mkObject
    [("name", Json.string s.m_name), ("version", Json.string s.m_version)]
  let result := Json.mkObject
    [("protocolVersion", Json.string "2024-11-05"),
     ("serverInfo", serverInfo),
     ("capabilities", s.m_capabilities)]
  Json.mkObject [("result", result)]

/-- Body of the loop of `Server::ListTools`, over the entries still to visit,
with the vector `tools` built so far. -/
def ListTools.loop : List (String × Tool σ) → List Json → Except Failure (List Json)
  | [], tools => Except.ok tools
  | (name, tool) :: rest, tools =>
    match Json.set (tool.InputSchema tool.state) "type" (Json.string "object") with
    | Except.error e => Except.error e
    | Except.ok inputSchema =>
      ListTools.loop rest (tools ++ [Json.mkObject
        [("name", Json.string name),
         ("description", Json.string (tool.Description tool.state)),
         ("inputSchema", inputSchema)]])

/-- Method `Server::ListTools`. -/
def ListTools (lay : Layout) (s : Server σ) : Except Failure Json :=
  match ListTools.loop (traverse lay s.m_tools) [] with
  | Except.error e => Except.error e
  | Except.ok tools =>
    let result := Json.mkObject [("tools", Json.array tools)]
    Except.ok (Json.mkObject [("result", result)])

/-- Method `Server::Invoke`. -/
def Invoke (s : Server σ) (params : Json) : Effect σ Json :=
  match (Json.get_const params "name").bind Json.get_string with
  | Except.error e => ⟨s, [], Except.error (Stop.failure e)⟩
  | Except.ok name =>
    match find s.m_tools name with
    | none => ⟨s, [], Except.ok (Error (-32601) "Method not found")⟩
    | some tool =>
      let r := tool.Execute tool.state params
      ⟨{ s with m_tools := store s.m_tools name { tool with state := r.2 } },
        [Event.Execute name params], Except.ok r.1⟩

/-- The `S_SWITCH` of `Server::HandleRequest`: the value assigned to
`response`, with the effects of computing it. -/
def HandleRequest.route (lay : Layout) (s : Server σ) (message : Json) (method : String) :
    Effect σ Json :=
  if S_SWITCH method = S_CASE "initialize" then
    ⟨s, [], Except.ok (Initialize s)⟩
  else if S_SWITCH method = S_CASE "tools/list" then
    match ListTools lay s with
    | Except.error e => ⟨s, [], Except.error (Stop.failure e)⟩
    | Except.ok response => ⟨s, [], Except.ok response⟩
  else if S_SWITCH method = S_CASE "tools/call" then
    match Json.get_const message "params" with
    | Except.error e => ⟨s, [], Except.error (Stop.failure e)⟩
    | Except.ok params => Invoke s params
  else
    ⟨s, [], Except.ok (Error (-32601) "Method not found")⟩

/-- Method `Server::HandleRequest`. -/
def HandleRequest (lay : Layout) (s : Server σ) (message : Json) : Effect σ Unit :=
  match (Json.get_const message "method").bind Json.get_string with
  | Except.error e => ⟨s, [], Except.error (Stop.failure e)⟩
  | Except.ok method =>
    let r := HandleRequest.route lay s message method
    match r.result with
    | Except.error stop => ⟨r.server, r.events, Except.error stop⟩
    | Except.ok response =>
      match Json.set response "jsonrpc" (Json.string "2.0") with
      | Except.error e => ⟨r.server, r.events, Except.error (Stop.failure e)⟩
      | Except.ok response1 =>
        match Json.get_const message "id" with
        | Except.error e => ⟨r.server, r.events, Except.error (Stop.failure e)⟩
        | Except.ok id =>
          match Json.set response1 "id" id with
          | Except.error e => ⟨r.server, r.events, Except.error (Stop.failure e)⟩
          | Except.ok response2 =>
            ⟨r.server, r.events ++ [Event.Send response2], Except.ok ()⟩

/-- Method `Server::HandleNotification`. -/
def HandleNotification (s : Server σ) (message : Json) : Effect σ Unit :=
  match (Json.get_const message "method").bind Json.get_string with
  | Except.error e => ⟨s, [], Except.error (Stop.failure e)⟩
  | Except.ok method =>
    if S_SWITCH method = S_CASE "notifications/initialized" then
      ⟨s, [], Except.ok ()⟩
    else if S_SWITCH method = S_CASE "notifications/cancelled" then
      ⟨s, [], Except.error (Stop.exit 0)⟩
    else
      ⟨s, [], Except.ok ()⟩

/-- One turn of the loop of `Server::Run` on a received text, given as the
outcome of `nlohmann::json::parse` on it (`none` when the text is rejected). -/
def Run.turn (lay : Layout) (s : Server σ) (received : Option Json) : Effect σ Unit :=
  match received with
  | none => ⟨s, [], Except.error (Stop.failure Failure.parse_error)⟩
  | some message =>
    match (Json.get_const message "method").bind Json.get_string with
    | Except.error e => ⟨s, [], Except.error (Stop.failure e)⟩
    | Except.ok method =>
      if starts_with method "notifications/" then HandleNotification s message
      else HandleRequest lay s message

/-- Method `Server::Run` on the texts the transport delivers, in order. The
result is `ok` when every text was handled and the loop waits in `Receive`. -/
def Run (lay : Layout) (s : Server σ) : List (Option Json) → Effect σ Unit
  | [] => ⟨s, [], Except.ok ()⟩
  | received :: later =>
    let e := Run.turn lay s received
    match e.result with
    | Except.error stop => ⟨e.server, e.events, Except.error stop⟩
    | Except.ok _ =>
      let e1 := Run lay e.server later
      ⟨e1.server, e.events ++ e1.events, e1.result⟩

end Server

/-- Responses sent, in order, among recorded calls. -/
def sent : List Event → List Json
  | [] => []
  | Event.Send r :: es => r :: sent es
  | Event.Execute _ _ :: es => sent es

/-- Calls of `Execute`, in order, among recorded calls. -/
def executed : List Event → List (String × Json)
  | [] => []
  | Event.Send _ :: es => executed es
  | Event.Execute t p :: es => (t, p) :: executed es

/-! ## Observations on documents -/

/-- Whether `j[key] = v` is accepted by a document: it is an object or `null`. -/
def Json.isObjectOrNull : Json → Bool
  | Json.null => true
  | Json.object _ => true
  | _ => false

/-- Members of a document once `j[key] = v` has turned `null` into an object. -/
def Json.members : Json → List (String × Json)
  | Json.object m => m
  | _ => []

/-- Whether a document contains exactly one of the fields `result` and `error`. -/
def Json.oneOfResultError (j : Json) : Bool :=
  xor (Json.contains j "result") (Json.contains j "error")

/-- Conditions under which the handler chosen for `method` runs to its end:
a `tools/list` handler needs every registered `InputSchema()` to accept
`["type"] = ...`, and a `tools/call` handler needs `params.name` to be a string
and the document returned by the named tool, if registered, to accept
`["jsonrpc"] = ...`. -/
def Server.Answerable {σ : Type} (s : Server σ) (message : Json) (method : String) : Prop :=
  (S_SWITCH method = S_CASE "tools/list" →
    ∀ entry ∈ s.m_tools, Json.isObjectOrNull (entry.2.InputSchema entry.2.state) = true) ∧
  (S_SWITCH method = S_CASE "tools/call" →
    ∃ params name, Json.field? message "params" = some params ∧
      Json.field? params "name" = some (Json.string name) ∧
      ∀ tool, Server.find s.m_tools name = some tool →
        Json.isObjectOrNull (tool.Execute tool.state params).1 = true)

/-- A run of `AddTool` calls, one per tool of the list, that all return
normally; the result is the server afterwards. -/
def Server.addAll {σ : Type} (s : Server σ) : List (Tool σ) → Option (Server σ)
  | [] => some s
  | tool :: later =>
    match (Server.AddTool s tool).result with
    | Except.ok _ => Server.addAll (Server.AddTool s tool).server later
    | Except.error _ => none

/-- The element that `Server::ListTools` pushes for one map entry whose schema
accepts `["type"] = "object"`. -/
def Server.advertised {σ : Type} (entry : String × Tool σ) : Json :=
  Json.object
    [("description", Json.string (entry.2.Description entry.2.state)),
     ("inputSchema", Json.object
        (Json.assign (Json.members (entry.2.InputSchema entry.2.state)) "type" (Json.string "object"))),
     ("name", Json.string entry.1)]

/-! ## Sample tools and messages -/

/-- A tool that answers with the text found under `params.arguments.text`. -/
def echo : Tool Nat :=
  { Name := "echo"
    Description := fun _ => "Repeat the text"
    InputSchema := fun _ => Json.object []
    state := 0
    Execute := fun n params =>
      match (Json.field? params "arguments").bind (fun a => Json.field? a "text") with
      | some (Json.string t) => (Tool.Result t, n + 1)
      | _ => (Tool.Error 7 "no text", n + 1) }

/-- A tool whose `Execute` returns a bare string and whose schema is an array. -/
def bare : Tool Nat :=
  { Name := "bare"
    Description := fun _ => "Return a bare string"
    InputSchema := fun _ => Json.array []
    state := 0
    Execute := fun n _ => (Json.string "done", n) }

/-- A tool whose `Execute` returns an empty object. -/
def blank : Tool Nat :=
  { Name := "blank"
    Description := fun _ => "Return an empty object"
    InputSchema := fun _ => Json.null
    state := 0
    Execute := fun n _ => (Json.object [], n) }

/-- A request `\x7b"id": id, "method": method\x7d`. -/
def request (id : Json) (method : String) : Json :=
  Json.object [("id", id), ("method", Json.string method)]

/-- A request `\x7b"id": id, "method": "tools/call", "params": \x7b"name": name\x7d\x7d`. -/
def callOf (id : Json) (name : Json) : Json :=
  Json.object [("id", id), ("method", Json.string "tools/call"),
    ("params", Json.object [("name", name)])]

/-- A traversal layout that visits entries oldest first. -/
def oldestFirst : Layout := ⟨fun _ _ => 0⟩

/-- A server with no tools. -/
def demo : Server Nat := Server.new "demo" "1.0" (Json.object [])

/-- The server `demo` after `AddTool(echo)`. -/
def demoEcho : Server Nat := (Server.AddTool demo echo).server

/-- The server `demo` after `AddTool(bare)`. -/
def demoBare : Server Nat := (Server.AddTool demo bare).server

/-- The server `demo` after `AddTool(blank)`. -/
def demoBlank : Server Nat := (Server.AddTool demo blank).server

/-- A `tools/call` request for `echo` with the text `hi`. -/
def callEcho (id : Json) : Json :=
  Json.object [("id", id), ("method", Json.string "tools/call"),
    ("params", Json.object [("arguments", Json.object [("text", Json.string "hi")]),
      ("name", Json.string "echo")])]

/-- The server `demo` after `AddTool(echo)` then `AddTool(blank)`. -/
def demoEchoBlank : Server Nat := (Server.AddTool demoEcho blank).server

/-- A traversal layout that visits entries newest first. -/
def newestFirst : Layout := ⟨fun keys k => keys.length - keys.indexOf k⟩

/-- A tool whose `Execute` returns a document with both `result` and `error`. -/
def twofold : Tool Nat :=
  { Name := "twofold"
    Description := fun _ => "Return both fields"
    InputSchema := fun _ => Json.object []
    state := 0
    Execute := fun n _ => (Json.object [("error", Json.null), ("result", Json.null)], n) }

/-- The server `demo` after `AddTool(twofold)`. -/
def demoTwofold : Server Nat := (Server.AddTool demo twofold).server

/-- A `tools/call` request for `echo` without arguments, which `echo` answers
with `Tool::Error(7, "no text")`. -/
def callEchoBare (id : Json) : Json := callOf id (Json.string "echo")

/-! ## Further observations and samples -/

/-- The 64-bit FNV-1a hash in the words of its usual statement, for comparison
with `fnv1a_hash`: for each byte `b` in order, over all bytes given, the value
becomes `((value XOR b) * 1099511628211) mod 2^64`, with `b` taken as the
unsigned value of the byte. -/
def fnv1a_standard : List Nat → Nat → Nat
  | [], value => value
  | b :: rest, value => fnv1a_standard rest (Nat.xor value b * 1099511628211 % 2 ^ 64)

/-- What a server holds of a registered tool apart from the tool's state:
its key, its name and its methods `Description`, `InputSchema` and `Execute`. -/
def Server.face {σ : Type} (entry : String × Tool σ) :
    String × String × (σ → String) × (σ → Json) × (σ → Json → Json × σ) :=
  (entry.1, entry.2.Name, entry.2.Description, entry.2.InputSchema, entry.2.Execute)

/-- Two servers with the same identity, capabilities and registered tools, the
states of the tools apart. -/
def Server.sameRegistry {σ : Type} (s s1 : Server σ) : Prop :=
  s.m_name = s1.m_name ∧ s.m_version = s1.m_version ∧
    s.m_capabilities = s1.m_capabilities ∧
    s.m_tools.map Server.face = s1.m_tools.map Server.face

/-- Nothing a registered tool shows depends on the state of the tool: the
document its `Execute` returns depends on `params` alone, and `Description()`
and `InputSchema()` return the same values in every state. -/
def Server.stateless {σ : Type} (s : Server σ) : Prop :=
  ∀ entry ∈ s.m_tools, ∀ st st1,
    (∀ params, (entry.2.Execute st params).1 = (entry.2.Execute st1 params).1) ∧
    entry.2.Description st = entry.2.Description st1 ∧
    entry.2.InputSchema st = entry.2.InputSchema st1

/-- A tool that reports an error on its first call and succeeds afterwards. -/
def flaky : Tool Nat :=
  { Name := "flaky"
    Description := fun _ => "Fail on the first call only"
    InputSchema := fun _ => Json.object []
    state := 0
    Execute := fun n _ =>
      if n = 0 then (Tool.Error 1 "busy", 1) else (Tool.Result "ready", n) }

/-- The server `demo` after `AddTool(flaky)`. -/
def demoFlaky : Server Nat := (Server.AddTool demo flaky).server

/-- The notification `\x7b"method": "notifications/cancelled"\x7d`. -/
def cancelled : Json := Json.object [("method", Json.string "notifications/cancelled")]

/-- A tool whose schema is an object with a `type` other than "object". -/
def typed : Tool Nat :=
  { Name := "typed"
    Description := fun _ => "Declare an array schema"
    InputSchema := fun _ => Json.object [("title", Json.string "t"), ("type", Json.string "array")]
    state := 0
    Execute := fun n _ => (Tool.Result "", n) }

/-- The server `demo` after `AddTool(typed)`. -/
def demoTyped : Server Nat := (Server.AddTool demo typed).server

/-- The response that carries the error -32601 "Method not found" for the
request `id`. -/
def methodNotFound (id : Json) : Json :=
  Json.object [("error", Json.object
      [("code", Json.number (-32601)), ("message", Json.string "Method not found")]),
    ("id", id), ("jsonrpc", Json.string "2.0")]

/-- A tool whose `Execute` returns the same document on every call and whose
`Description()` changes once it has been called. -/
def relabel : Tool Nat :=
  { Name := "relabel"
    Description := fun n => if n = 0 then "fresh" else "used"
    InputSchema := fun _ => Json.object []
    state := 0
    Execute := fun n _ => (Tool.Result "ok", n + 1) }

/-- The server `demo` after `AddTool(relabel)`. -/
def demoRelabel : Server Nat := (Server.AddTool demo relabel).server

/-! ## Lemmas on documents -/

theorem Json.find_assign (m : List (String × Json)) (k : String) (v : Json) (k1 : String) :
    Json.find (Json.assign m k v) k1 = if k1 = k then some v else Json.find m k1 := by
  induction m with
  | nil => simp [Json.assign, Json.find]
  | cons hd tl ih =>
    obtain ⟨k0, w⟩ := hd
    by_cases h1 : k = k0
    · subst h1
      by_cases h2 : k1 = k <;> simp [Json.assign, Json.find, h2]
    · by_cases h3 : bytesLt (data k) (data k0) = true
      · by_cases h2 : k1 = k <;> simp [Json.assign, Json.find, h1, h2, h3]
      · by_cases h2 : k1 = k
        · subst h2
          simp [Json.assign, Json.find, h1, h3, ih]
        · simp [Json.assign, Json.find, h1, h2, h3, ih]

theorem Json.set_eq (j : Json) (k : String) (v : Json) (h : Json.isObjectOrNull j = true) :
    Json.set j k v = Except.ok (Json.object (Json.assign (Json.members j) k v)) := by
  cases j <;> simp_all [Json.set, Json.isObjectOrNull, Json.members, Json.assign]

theorem Json.set_error (j : Json) (k : String) (v : Json) (h : Json.isObjectOrNull j = false) :
    Json.set j k v = Except.error (Failure.type_error 305) := by
  cases j <;> simp_all [Json.set, Json.isObjectOrNull]

theorem Json.get_const_of_field (j : Json) (k : String) (v : Json)
    (h : Json.field? j k = some v) : Json.get_const j k = Except.ok v := by
  cases j <;> simp_all [Json.field?, Json.get_const]

theorem Json.get_const_of_no_field (j : Json) (k : String)
    (h : Json.field? j k = none) : ∃ e, Json.get_const j k = Except.error e := by
  cases j <;> simp_all [Json.field?, Json.get_const]

theorem Json.field_members_assign (m : List (String × Json)) (k : String) (v : Json)
    (k1 : String) :
    Json.field? (Json.object (Json.assign m k v)) k1
      = if k1 = k then some v else Json.find m k1 := by
  simp [Json.field?, Json.find_assign]

theorem Json.find_members (j : Json) (k : String) :
    Json.find (Json.members j) k = Json.field? j k := by
  cases j <;> simp [Json.members, Json.field?, Json.find]

theorem Json.assign_idem (m : List (String × Json)) (k : String) (v : Json) :
    Json.assign (Json.assign m k v) k v = Json.assign m k v := by
  induction m with
  | nil => simp [Json.assign]
  | cons hd tl ih =>
    obtain ⟨k0, w⟩ := hd
    by_cases h1 : k = k0
    · simp [Json.assign, h1]
    · by_cases h3 : bytesLt (data k) (data k0) = true
      · simp [Json.assign, h1, h3]
      · simp [Json.assign, h1, h3, ih]

/-! ## Lemmas on the handlers -/

section handlers

variable {σ : Type}

theorem S_CASE_list_ne_initialize : S_CASE "tools/list" ≠ S_CASE "initialize" := by decide

theorem S_CASE_call_ne_initialize : S_CASE "tools/call" ≠ S_CASE "initialize" := by decide

theorem S_CASE_call_ne_list : S_CASE "tools/call" ≠ S_CASE "tools/list" := by decide

theorem Json.set_ok_inv (j : Json) (k : String) (v r : Json)
    (h : Json.set j k v = Except.ok r) :
    Json.isObjectOrNull j = true ∧ r = Json.object (Json.assign (Json.members j) k v) := by
  cases j <;> simp_all [Json.set, Json.isObjectOrNull, Json.members, Json.assign]

theorem Server.Invoke_sent (s : Server σ) (params : Json) :
    sent (Server.Invoke s params).events = [] := by
  unfold Server.Invoke
  split
  · rfl
  · split <;> rfl

theorem Server.route_sent (lay : Layout) (s : Server σ) (message : Json) (method : String) :
    sent (Server.HandleRequest.route lay s message method).events = [] := by
  unfold Server.HandleRequest.route
  split_ifs
  · rfl
  · split <;> rfl
  · split
    · rfl
    · exact Server.Invoke_sent s _
  · rfl

theorem sent_append (a b : List Event) : sent (a ++ b) = sent a ++ sent b := by
  induction a with
  | nil => rfl
  | cons e t ih => cases e <;> simp [sent, ih]

theorem executed_append (a b : List Event) : executed (a ++ b) = executed a ++ executed b := by
  induction a with
  | nil => rfl
  | cons e t ih => cases e <;> simp [executed, ih]

/-- Shape of `HandleRequest` once the `S_SWITCH` has produced `response`. -/
theorem Server.HandleRequest_of_route (lay : Layout) (s : Server σ) (message : Json)
    (method : String) (id response : Json)
    (hm : Json.field? message "method" = some (Json.string method))
    (hid : Json.field? message "id" = some id)
    (hr : (Server.HandleRequest.route lay s message method).result = Except.ok response)
    (ho : Json.isObjectOrNull response = true) :
    Server.HandleRequest lay s message =
      ⟨(Server.HandleRequest.route lay s message method).server,
        (Server.HandleRequest.route lay s message method).events ++
          [Event.Send (Json.object (Json.assign
            (Json.assign (Json.members response) "jsonrpc" (Json.string "2.0")) "id" id))],
        Except.ok ()⟩ := by
  unfold Server.HandleRequest
  rw [Json.get_const_of_field _ _ _ hm]
  simp only [Except.bind, Json.get_string]
  rw [hr]
  simp only
  rw [Json.set_eq _ _ _ ho]
  simp only
  rw [Json.get_const_of_field _ _ _ hid]
  simp only [Json.set]

theorem Json.get_const_ok_inv (j : Json) (k : String) (v : Json)
    (h : Json.get_const j k = Except.ok v) : Json.field? j k = some v := by
  cases j <;> simp_all [Json.field?, Json.get_const]
  split at h <;> simp_all

theorem Server.loop_ok (l : List (String × Tool σ)) (acc : List Json)
    (h : ∀ entry ∈ l, Json.isObjectOrNull (entry.2.InputSchema entry.2.state) = true) :
    Server.ListTools.loop l acc = Except.ok (acc ++ l.map Server.advertised) := by
  induction l generalizing acc with
  | nil => simp [Server.ListTools.loop]
  | cons hd tl ih =>
    obtain ⟨name, tool⟩ := hd
    have h1 : Json.isObjectOrNull (tool.InputSchema tool.state) = true := h (name, tool) (by simp)
    have h2 : ∀ entry ∈ tl, Json.isObjectOrNull (entry.2.InputSchema entry.2.state) = true :=
      fun e he => h e (by simp [he])
    unfold Server.ListTools.loop
    rw [Json.set_eq _ _ _ h1]
    simp only
    rw [ih _ h2]
    simp only [List.map_cons, List.append_assoc, List.singleton_append]
    rfl

theorem Server.traverse_perm (lay : Layout) (m : List (String × Tool σ)) :
    (Server.traverse lay m).Perm m := by
  unfold Server.traverse
  exact List.perm_insertionSort _ _

theorem Server.ListTools_ok (lay : Layout) (s : Server σ)
    (h : ∀ entry ∈ s.m_tools, Json.isObjectOrNull (entry.2.InputSchema entry.2.state) = true) :
    Server.ListTools lay s = Except.ok (Json.object [("result", Json.object
      [("tools", Json.array ((Server.traverse lay s.m_tools).map Server.advertised))])]) := by
  unfold Server.ListTools
  rw [Server.loop_ok]
  · rfl
  · intro e he
    exact h e ((Server.traverse_perm lay s.m_tools).mem_iff.mp he)

theorem Server.Invoke_of_name (s : Server σ) (params : Json) (name : String)
    (hn : Json.field? params "name" = some (Json.string name)) :
    Server.Invoke s params =
      match Server.find s.m_tools name with
      | none => ⟨s, [], Except.ok (Server.Error (-32601) "Method not found")⟩
      | some tool =>
        ⟨{ s with m_tools := (Server.store s.m_tools name
              { tool with state := (tool.Execute tool.state params).2 }) },
          [Event.Execute name params], Except.ok (tool.Execute tool.state params).1⟩ := by
  unfold Server.Invoke
  rw [Json.get_const_of_field _ _ _ hn]
  rfl

/-- Under `Answerable`, the `S_SWITCH` of `HandleRequest` yields a document that
accepts the `jsonrpc` and `id` fields. -/
theorem Server.route_completes (lay : Layout) (s : Server σ) (message : Json)
    (method : String) (h : Server.Answerable s message method) :
    ∃ response, (Server.HandleRequest.route lay s message method).result = Except.ok response ∧
      Json.isObjectOrNull response = true := by
  obtain ⟨hlist, hcall⟩ := h
  unfold Server.HandleRequest.route
  split_ifs with h1 h2 h3
  · exact ⟨_, rfl, rfl⟩
  · rw [Server.ListTools_ok lay s (hlist h2)]
    exact ⟨_, rfl, rfl⟩
  · obtain ⟨params, name, hp, hn, ht⟩ := hcall h3
    rw [Json.get_const_of_field _ _ _ hp]
    simp only
    rw [Server.Invoke_of_name s params name hn]
    cases hf : Server.find s.m_tools name with
    | none => exact ⟨_, rfl, rfl⟩
    | some tool => exact ⟨_, rfl, ht tool hf⟩
  · exact ⟨_, rfl, rfl⟩

/-- Whatever `HandleRequest` sends is a single response carrying `jsonrpc` and
the `id` of the message. -/
theorem Server.HandleRequest_sent_inv (lay : Layout) (s : Server σ) (message r : Json)
    (hr : r ∈ sent (Server.HandleRequest lay s message).events) :
    sent (Server.HandleRequest lay s message).events = [r] ∧
      (Server.HandleRequest lay s message).result = Except.ok () ∧
      Json.field? r "jsonrpc" = some (Json.string "2.0") ∧
      ∃ id, Json.field? message "id" = some id ∧ Json.field? r "id" = some id := by
  unfold Server.HandleRequest at hr ⊢
  cases hmeth : (Json.get_const message "method").bind Json.get_string with
  | error e => simp [hmeth, sent] at hr
  | ok method =>
    simp only [hmeth] at hr ⊢
    cases hresp : (Server.HandleRequest.route lay s message method).result with
    | error e => simp [hresp, Server.route_sent] at hr
    | ok response =>
      simp only [hresp] at hr ⊢
      cases h1 : Json.set response "jsonrpc" (Json.string "2.0") with
      | error e => simp [h1, Server.route_sent] at hr
      | ok response1 =>
        simp only [h1] at hr ⊢
        cases hid : Json.get_const message "id" with
        | error e => simp [hid, Server.route_sent] at hr
        | ok id =>
          simp only [hid] at hr ⊢
          cases h2 : Json.set response1 "id" id with
          | error e => simp [h2, Server.route_sent] at hr
          | ok response2 =>
            simp only [h2, sent_append, Server.route_sent, sent, List.nil_append,
              List.mem_singleton] at hr ⊢
            subst hr
            obtain ⟨_, e1⟩ := Json.set_ok_inv _ _ _ _ h1
            obtain ⟨_, e2⟩ := Json.set_ok_inv _ _ _ _ h2
            refine ⟨rfl, trivial, ?_, id, Json.get_const_ok_inv _ _ _ hid, ?_⟩
            · rw [e2, Json.field_members_assign, Json.find_members, e1,
                Json.field_members_assign]
              simp
            · rw [e2, Json.field_members_assign]
              simp

theorem Json.string_of_get (j : Json) (k : String) (x : String)
    (h : (Json.get_const j k).bind Json.get_string = Except.ok x) :
    Json.field? j k = some (Json.string x) := by
  cases hg : Json.get_const j k with
  | error e => simp [hg, Except.bind] at h
  | ok v =>
    rw [hg] at h
    cases v <;> simp_all [Except.bind, Json.get_string]
    exact Json.get_const_ok_inv _ _ _ hg

/-- Shape of a response sent by `HandleRequest`: the document of the
`S_SWITCH` with `jsonrpc` and `id` assigned. -/
theorem Server.HandleRequest_sent_shape (lay : Layout) (s : Server σ) (message r : Json)
    (hr : r ∈ sent (Server.HandleRequest lay s message).events) :
    ∃ method response id,
      Json.field? message "method" = some (Json.string method) ∧
      (Server.HandleRequest.route lay s message method).result = Except.ok response ∧
      Json.isObjectOrNull response = true ∧
      Json.field? message "id" = some id ∧
      r = Json.object (Json.assign
        (Json.assign (Json.members response) "jsonrpc" (Json.string "2.0")) "id" id) := by
  unfold Server.HandleRequest at hr
  cases hmeth : (Json.get_const message "method").bind Json.get_string with
  | error e => simp [hmeth, sent] at hr
  | ok method =>
    simp only [hmeth] at hr
    cases hresp : (Server.HandleRequest.route lay s message method).result with
    | error e => simp [hresp, Server.route_sent] at hr
    | ok response =>
      simp only [hresp] at hr
      cases h1 : Json.set response "jsonrpc" (Json.string "2.0") with
      | error e => simp [h1, Server.route_sent] at hr
      | ok response1 =>
        simp only [h1] at hr
        cases hid : Json.get_const message "id" with
        | error e => simp [hid, Server.route_sent] at hr
        | ok id =>
          simp only [hid] at hr
          cases h2 : Json.set response1 "id" id with
          | error e => simp [h2, Server.route_sent] at hr
          | ok response2 =>
            simp only [h2, sent_append, Server.route_sent, sent, List.nil_append,
              List.mem_singleton] at hr
            subst hr
            obtain ⟨o1, e1⟩ := Json.set_ok_inv _ _ _ _ h1
            obtain ⟨_, e2⟩ := Json.set_ok_inv _ _ _ _ h2
            refine ⟨method, response, id, Json.string_of_get _ _ _ hmeth, hresp, o1,
              Json.get_const_ok_inv _ _ _ hid, ?_⟩
            rw [e2, e1]
            rfl

/-- The server left by `HandleRequest`, and the calls of `Execute` it makes, are
those of its `S_SWITCH`. -/
theorem Server.HandleRequest_frame (lay : Layout) (s : Server σ) (message : Json)
    (method : String) (hm : Json.field? message "method" = some (Json.string method)) :
    (Server.HandleRequest lay s message).server
        = (Server.HandleRequest.route lay s message method).server ∧
      executed (Server.HandleRequest lay s message).events
        = executed (Server.HandleRequest.route lay s message method).events := by
  unfold Server.HandleRequest
  rw [Json.get_const_of_field _ _ _ hm]
  simp only [Except.bind, Json.get_string]
  split
  · exact ⟨rfl, rfl⟩
  · split
    · exact ⟨rfl, rfl⟩
    · split
      · exact ⟨rfl, rfl⟩
      · split
        · exact ⟨rfl, rfl⟩
        · simp [executed_append, executed]

theorem Server.loop_ok_inv (l : List (String × Tool σ)) (acc tools : List Json)
    (h : Server.ListTools.loop l acc = Except.ok tools) :
    tools = acc ++ l.map Server.advertised := by
  induction l generalizing acc with
  | nil =>
    simp [Server.ListTools.loop] at h
    simp [h]
  | cons hd tl ih =>
    obtain ⟨name, tool⟩ := hd
    unfold Server.ListTools.loop at h
    cases hs : Json.set (tool.InputSchema tool.state) "type" (Json.string "object") with
    | error e => simp [hs] at h
    | ok schema =>
      simp only [hs] at h
      obtain ⟨_, e1⟩ := Json.set_ok_inv _ _ _ _ hs
      rw [ih _ h, e1]
      simp only [List.map_cons, List.append_assoc, List.singleton_append]
      rfl

theorem Server.ListTools_ok_inv (lay : Layout) (s : Server σ) (response : Json)
    (h : Server.ListTools lay s = Except.ok response) :
    response = Json.object [("result", Json.object
      [("tools", Json.array ((Server.traverse lay s.m_tools).map Server.advertised))])] := by
  unfold Server.ListTools at h
  cases hl : Server.ListTools.loop (Server.traverse lay s.m_tools) [] with
  | error e => simp [hl] at h
  | ok tools =>
    simp only [hl] at h
    have e := Server.loop_ok_inv _ _ _ hl
    rw [← Except.ok.inj h, e]
    rfl

theorem Server.route_call (lay : Layout) (s : Server σ) (message : Json) :
    Server.HandleRequest.route lay s message "tools/call" =
      match Json.get_const message "params" with
      | Except.error e => ⟨s, [], Except.error (Stop.failure e)⟩
      | Except.ok params => Server.Invoke s params := by
  unfold Server.HandleRequest.route
  rw [if_neg (by decide), if_neg (by decide), if_pos (by decide)]

theorem Server.route_initialize (lay : Layout) (s : Server σ) (message : Json) :
    Server.HandleRequest.route lay s message "initialize"
      = ⟨s, [], Except.ok (Server.Initialize s)⟩ := by
  unfold Server.HandleRequest.route
  rw [if_pos (by decide)]

theorem Server.find_eq_none_iff (m : List (String × Tool σ)) (name : String) :
    Server.find m name = none ↔ name ∉ m.map Prod.fst := by
  induction m with
  | nil => simp [Server.find]
  | cons hd tl ih =>
    obtain ⟨k, t⟩ := hd
    by_cases h : name = k
    · simp [Server.find, h]
    · simp [Server.find, h, ih]

theorem Server.find_map_named (ts : List (Tool σ)) (t : Tool σ) (ht : t ∈ ts)
    (hn : (ts.map Tool.Name).Nodup) :
    Server.find (ts.map (fun t => (t.Name, t))) t.Name = some t := by
  induction ts with
  | nil => simp at ht
  | cons hd tl ih =>
    simp only [List.map_cons, List.nodup_cons, List.mem_map, not_exists, not_and] at hn
    rcases List.mem_cons.mp ht with h | h
    · subst h
      simp [Server.find]
    · have hne : t.Name ≠ hd.Name := fun e => hn.1 t h e
      simp [Server.find, hne, ih h hn.2]

theorem Server.AddTool_fresh (s : Server σ) (tool : Tool σ)
    (h : tool.Name ∉ s.m_tools.map Prod.fst) :
    Server.AddTool s tool
      = ⟨{ s with m_tools := s.m_tools ++ [(tool.Name, tool)] }, [], Except.ok ()⟩ := by
  have hf := (Server.find_eq_none_iff s.m_tools tool.Name).mpr h
  simp [Server.AddTool, Server.emplace, hf]

theorem Server.AddTool_present (s : Server σ) (tool : Tool σ)
    (h : tool.Name ∈ s.m_tools.map Prod.fst) :
    Server.AddTool s tool
      = ⟨s, [], Except.error (Stop.failure (Failure.runtime_error
          ("Tool with name '" ++ tool.Name ++ "' already exists.")))⟩ := by
  cases hf : Server.find s.m_tools tool.Name with
  | none => exact absurd h ((Server.find_eq_none_iff s.m_tools tool.Name).mp hf)
  | some t0 => simp [Server.AddTool, Server.emplace, hf]

/-- What a run of successful `AddTool` calls leaves: the tools in the order
of the calls, each under its own name, all names distinct and new. -/
theorem Server.addAll_inv (ts : List (Tool σ)) (s s1 : Server σ)
    (h : Server.addAll s ts = some s1) :
    s1.m_tools = s.m_tools ++ ts.map (fun t => (t.Name, t)) ∧
      s1.m_name = s.m_name ∧ s1.m_version = s.m_version ∧
      s1.m_capabilities = s.m_capabilities ∧
      (ts.map Tool.Name).Nodup ∧
      ∀ t ∈ ts, t.Name ∉ s.m_tools.map Prod.fst := by
  induction ts generalizing s with
  | nil =>
    simp only [Server.addAll, Option.some.injEq] at h
    subst h
    simp
  | cons hd tl ih =>
    unfold Server.addAll at h
    by_cases hp : hd.Name ∈ s.m_tools.map Prod.fst
    · rw [Server.AddTool_present s hd hp] at h
      simp at h
    · rw [Server.AddTool_fresh s hd hp] at h
      simp only at h
      obtain ⟨h1, h2, h3, h4, h5, h6⟩ := ih _ h
      simp only [List.map_append, List.map_cons, List.map_nil, List.mem_append,
        List.mem_singleton, not_or] at h6
      refine ⟨by simp [h1], h2, h3, h4, ?_, ?_⟩
      · simp only [List.map_cons, List.nodup_cons, List.mem_map, not_exists, not_and]
        exact ⟨fun t ht e => (h6 t ht).2 e, h5⟩
      · intro t ht
        rcases List.mem_cons.mp ht with e | e
        · subst e
          exact hp
        · exact (h6 t e).1

theorem Server.addAll_new (ts : List (Tool σ)) (n v : String) (c : Json) (s : Server σ)
    (h : Server.addAll (Server.new n v c) ts = some s) :
    s = ⟨n, v, c, ts.map (fun t => (t.Name, t))⟩ ∧ (ts.map Tool.Name).Nodup := by
  obtain ⟨h1, h2, h3, h4, h5, _⟩ := Server.addAll_inv ts _ s h
  refine ⟨?_, h5⟩
  cases s
  simp_all [Server.new]

/-- Fields of a response: `id` and `jsonrpc` are those assigned by
`HandleRequest`, every other field is that of the handler's document. -/
theorem Json.envelope_field (response v id : Json) (k : String) :
    Json.field? (Json.object (Json.assign
        (Json.assign (Json.members response) "jsonrpc" v) "id" id)) k
      = if k = "id" then some id else if k = "jsonrpc" then some v
        else Json.field? response k := by
  rw [Json.field_members_assign, Json.find_assign, Json.find_members]

theorem Server.turn_request (lay : Layout) (s : Server σ) (message : Json) (method : String)
    (hm : Json.field? message "method" = some (Json.string method))
    (hp : starts_with method "notifications/" = false) :
    Server.Run.turn lay s (some message) = Server.HandleRequest lay s message := by
  unfold Server.Run.turn
  simp [Json.get_const_of_field _ _ _ hm, Except.bind, Json.get_string, hp]

theorem Server.turn_notification (lay : Layout) (s : Server σ) (message : Json)
    (method : String)
    (hm : Json.field? message "method" = some (Json.string method))
    (hp : starts_with method "notifications/" = true) :
    Server.Run.turn lay s (some message) = Server.HandleNotification s message := by
  unfold Server.Run.turn
  simp [Json.get_const_of_field _ _ _ hm, Except.bind, Json.get_string, hp]

theorem Server.find_some_mem (m : List (String × Tool σ)) (name : String) (tool : Tool σ)
    (h : Server.find m name = some tool) : (name, tool) ∈ m := by
  induction m with
  | nil => simp [Server.find] at h
  | cons hd tl ih =>
    obtain ⟨k, t⟩ := hd
    by_cases e : name = k
    · simp [Server.find, e] at h
      simp [e, h]
    · simp [Server.find, e] at h
      simp [ih h]

/-- A `tools/call` request with string `params.name`: the `S_SWITCH` of
`HandleRequest` is the call of `Invoke`. -/
theorem Server.route_call_params (lay : Layout) (s : Server σ) (message params : Json)
    (hp : Json.field? message "params" = some params) :
    Server.HandleRequest.route lay s message "tools/call" = Server.Invoke s params := by
  rw [Server.route_call, Json.get_const_of_field _ _ _ hp]

/-- The document produced by the `S_SWITCH` of `HandleRequest`, by the case
taken: outside the `tools/call` case it holds exactly one of `result` and
`error`; in the `tools/call` case it is the error -32601 when `params.name` is
not registered and the document returned by the named tool when it is. -/
theorem Server.route_result_by_method (lay : Layout) (s : Server σ) (message : Json)
    (method : String) (response : Json)
    (h : (Server.HandleRequest.route lay s message method).result = Except.ok response) :
    (S_SWITCH method ≠ S_CASE "tools/call" → Json.oneOfResultError response = true) ∧
    (S_SWITCH method = S_CASE "tools/call" →
      ∃ params name, Json.field? message "params" = some params ∧
        Json.field? params "name" = some (Json.string name) ∧
        (Server.find s.m_tools name = none →
          response = Server.Error (-32601) "Method not found") ∧
        (∀ tool, Server.find s.m_tools name = some tool →
          response = (tool.Execute tool.state params).1)) := by
  unfold Server.HandleRequest.route at h
  split_ifs at h with h1 h2 h3
  · simp only [Except.ok.injEq] at h
    refine ⟨fun _ => ?_, fun hc => absurd (hc.symm.trans h1) S_CASE_call_ne_initialize⟩
    rw [← h]
    rfl
  · refine ⟨fun _ => ?_, fun hc => absurd (hc.symm.trans h2) S_CASE_call_ne_list⟩
    cases hl : Server.ListTools lay s with
    | error e => simp [hl] at h
    | ok doc =>
      simp only [hl, Except.ok.injEq] at h
      rw [← h, Server.ListTools_ok_inv lay s doc hl]
      rfl
  · refine ⟨fun hne => absurd h3 hne, fun _ => ?_⟩
    cases hp : Json.get_const message "params" with
    | error e => simp [hp] at h
    | ok params =>
      simp only [hp] at h
      unfold Server.Invoke at h
      cases hn : (Json.get_const params "name").bind Json.get_string with
      | error e => simp [hn] at h
      | ok name =>
        simp only [hn] at h
        refine ⟨params, name, Json.get_const_ok_inv _ _ _ hp, Json.string_of_get _ _ _ hn, ?_, ?_⟩
        · intro hf
          simp only [hf, Except.ok.injEq] at h
          exact h.symm
        · intro tool hf
          simp only [hf, Except.ok.injEq] at h
          exact h.symm
  · simp only [Except.ok.injEq] at h
    refine ⟨fun _ => ?_, fun hc => absurd hc h3⟩
    rw [← h]
    rfl

theorem Json.contains_envelope (response v id : Json) (k : String)
    (h1 : k ≠ "id") (h2 : k ≠ "jsonrpc") :
    Json.contains (Json.object (Json.assign
        (Json.assign (Json.members response) "jsonrpc" v) "id" id)) k
      = Json.contains response k := by
  unfold Json.contains
  rw [Json.envelope_field, if_neg h1, if_neg h2]

theorem Json.oneOfResultError_envelope (response v id : Json) :
    Json.oneOfResultError (Json.object (Json.assign
        (Json.assign (Json.members response) "jsonrpc" v) "id" id))
      = Json.oneOfResultError response := by
  unfold Json.oneOfResultError Json.contains
  rw [Json.envelope_field, Json.envelope_field, if_neg (by decide), if_neg (by decide),
    if_neg (by decide), if_neg (by decide)]

/-- A request whose method hash is none of the three case labels is answered
with the error -32601 and leaves the server as it was. -/
theorem Server.HandleRequest_default (lay : Layout) (s : Server σ) (message : Json)
    (method : String) (id : Json)
    (hm : Json.field? message "method" = some (Json.string method))
    (hid : Json.field? message "id" = some id)
    (h1 : S_SWITCH method ≠ S_CASE "initialize")
    (h2 : S_SWITCH method ≠ S_CASE "tools/list")
    (h3 : S_SWITCH method ≠ S_CASE "tools/call") :
    Server.HandleRequest lay s message
      = ⟨s, [Event.Send (methodNotFound id)], Except.ok ()⟩ := by
  have hr : Server.HandleRequest.route lay s message method
      = ⟨s, [], Except.ok (Server.Error (-32601) "Method not found")⟩ := by
    unfold Server.HandleRequest.route
    rw [if_neg h1, if_neg h2, if_neg h3]
  rw [Server.HandleRequest_of_route lay s message method id
    (Server.Error (-32601) "Method not found") hm hid (by rw [hr]) rfl, hr]
  rfl

/-- A `tools/call` request that names no registered tool is answered with the
error -32601 and leaves the server as it was. -/
theorem Server.HandleRequest_unknown_tool (lay : Layout) (s : Server σ)
    (message params id : Json) (name : String)
    (hm : Json.field? message "method" = some (Json.string "tools/call"))
    (hid : Json.field? message "id" = some id)
    (hp : Json.field? message "params" = some params)
    (hn : Json.field? params "name" = some (Json.string name))
    (hu : name ∉ s.m_tools.map Prod.fst) :
    Server.HandleRequest lay s message
      = ⟨s, [Event.Send (methodNotFound id)], Except.ok ()⟩ := by
  have hr : Server.HandleRequest.route lay s message "tools/call"
      = ⟨s, [], Except.ok (Server.Error (-32601) "Method not found")⟩ := by
    rw [Server.route_call_params lay s message params hp, Server.Invoke_of_name s params name hn,
      (Server.find_eq_none_iff _ _).mpr hu]
  rw [Server.HandleRequest_of_route lay s message "tools/call" id
    (Server.Error (-32601) "Method not found") hm hid (by rw [hr]) rfl, hr]
  rfl

/-- A `tools/call` request whose tool answers `Tool::Error(c, m)`: one call of
`Execute`, one response with that error, and the tool stored in the state its
`Execute` left. -/
theorem Server.HandleRequest_tool_error (lay : Layout) (s : Server σ)
    (message params id : Json) (name : String) (tool : Tool σ) (c : Int) (m : String)
    (hm : Json.field? message "method" = some (Json.string "tools/call"))
    (hid : Json.field? message "id" = some id)
    (hp : Json.field? message "params" = some params)
    (hn : Json.field? params "name" = some (Json.string name))
    (ht : Server.find s.m_tools name = some tool)
    (he : (tool.Execute tool.state params).1 = Tool.Error c m) :
    Server.HandleRequest lay s message
      = ⟨{ s with m_tools := (Server.store s.m_tools name
            { tool with state := (tool.Execute tool.state params).2 }) },
          [Event.Execute name params,
           Event.Send (Json.object [("error", Json.object
              [("code", Json.number c), ("message", Json.string m)]),
            ("id", id), ("jsonrpc", Json.string "2.0")])],
          Except.ok ()⟩ := by
  have hr : Server.HandleRequest.route lay s message "tools/call"
      = ⟨{ s with m_tools := (Server.store s.m_tools name
            { tool with state := (tool.Execute tool.state params).2 }) },
          [Event.Execute name params], Except.ok (Tool.Error c m)⟩ := by
    rw [Server.route_call_params lay s message params hp, Server.Invoke_of_name s params name hn,
      ht]
    simp only [he]
  rw [Server.HandleRequest_of_route lay s message "tools/call" id (Tool.Error c m) hm hid
    (by rw [hr]) rfl, hr]
  rfl

theorem Server.store_same (m : List (String × Tool σ)) (name : String) (tool : Tool σ)
    (h : Server.find m name = some tool) : Server.store m name tool = m := by
  induction m with
  | nil => rfl
  | cons hd tl ih =>
    obtain ⟨k, t⟩ := hd
    by_cases e : name = k
    · simp only [Server.find, e, if_true, Option.some.injEq] at h
      simp [Server.store, e, h]
    · simp only [Server.find, e, if_false] at h
      simp [Server.store, e, ih h]

theorem Server.store_face (m : List (String × Tool σ)) (name : String) (tool tool1 : Tool σ)
    (h : Server.find m name = some tool)
    (hf : Server.face (name, tool1) = Server.face (name, tool)) :
    (Server.store m name tool1).map Server.face = m.map Server.face := by
  induction m with
  | nil => rfl
  | cons hd tl ih =>
    obtain ⟨k, t⟩ := hd
    by_cases e : name = k
    · simp only [Server.find, e, if_true, Option.some.injEq] at h
      subst e h
      simp [Server.store, hf]
    · simp only [Server.find, e, if_false] at h
      simp [Server.store, e, ih h]

/-- One more text in front of the others, when its turn does not stop the
loop. -/
theorem Server.Run_cons_ok (lay : Layout) (s s1 : Server σ) (x : Option Json)
    (rest : List (Option Json)) (ev : List Event)
    (h : Server.Run.turn lay s x = ⟨s1, ev, Except.ok ()⟩) :
    Server.Run lay s (x :: rest) =
      ⟨(Server.Run lay s1 rest).server, ev ++ (Server.Run lay s1 rest).events,
        (Server.Run lay s1 rest).result⟩ := by
  simp [Server.Run, h]

/-! ### Servers that differ in the states of their tools only -/

theorem Server.sameRegistry_refl (s : Server σ) : Server.sameRegistry s s :=
  ⟨rfl, rfl, rfl, rfl⟩

theorem Server.sameRegistry_trans (s s1 s2 : Server σ) (h : Server.sameRegistry s s1)
    (h1 : Server.sameRegistry s1 s2) : Server.sameRegistry s s2 :=
  ⟨h.1.trans h1.1, h.2.1.trans h1.2.1, h.2.2.1.trans h1.2.2.1, h.2.2.2.trans h1.2.2.2⟩

theorem Server.traverse_face_eq (lay : Layout) (m : List (String × Tool σ)) :
    (Server.traverse lay m).map Server.face =
      List.insertionSort (fun a b =>
        lay.position ((m.map Server.face).map Prod.fst) a.1
          ≤ lay.position ((m.map Server.face).map Prod.fst) b.1) (m.map Server.face) := by
  have hk : (m.map Server.face).map Prod.fst = m.map Prod.fst := by
    simp [List.map_map, Function.comp_def, Server.face]
  rw [hk]
  unfold Server.traverse
  exact List.map_insertionSort _ _ Server.face m (fun a _ b _ => Iff.rfl)

theorem Server.traverse_face (lay : Layout) (m m1 : List (String × Tool σ))
    (h : m.map Server.face = m1.map Server.face) :
    (Server.traverse lay m).map Server.face = (Server.traverse lay m1).map Server.face := by
  rw [Server.traverse_face_eq, Server.traverse_face_eq, h]

theorem Server.loop_congr (l l1 : List (String × Tool σ)) (acc : List Json)
    (h : l.map Server.face = l1.map Server.face)
    (hdep : ∀ entry ∈ l, ∀ st st1, entry.2.Description st = entry.2.Description st1 ∧
      entry.2.InputSchema st = entry.2.InputSchema st1) :
    Server.ListTools.loop l acc = Server.ListTools.loop l1 acc := by
  induction l generalizing l1 acc with
  | nil =>
    cases l1 with
    | nil => rfl
    | cons hd1 tl1 => simp at h
  | cons hd tl ih =>
    cases l1 with
    | nil => simp at h
    | cons hd1 tl1 =>
      obtain ⟨name, tool⟩ := hd
      obtain ⟨name1, tool1⟩ := hd1
      simp only [List.map_cons, List.cons.injEq, Server.face, Prod.mk.injEq] at h
      obtain ⟨⟨hn, _, hdesc, hsch, _⟩, htl⟩ := h
      obtain ⟨d1, d2⟩ := hdep (name, tool) (by simp) tool.state tool1.state
      have e1 : tool.Description tool.state = tool1.Description tool1.state := by
        rw [d1, hdesc]
      have e2 : tool.InputSchema tool.state = tool1.InputSchema tool1.state := by
        rw [d2, hsch]
      unfold Server.ListTools.loop
      rw [hn, e1, e2]
      cases Json.set (tool1.InputSchema tool1.state) "type" (Json.string "object") with
      | error e => rfl
      | ok schema => exact ih tl1 _ htl (fun entry he => hdep entry (by simp [he]))

theorem Server.ListTools_congr (lay : Layout) (s s1 : Server σ)
    (h : Server.sameRegistry s s1) (hst : Server.stateless s) :
    Server.ListTools lay s = Server.ListTools lay s1 := by
  unfold Server.ListTools
  rw [Server.loop_congr _ _ [] (Server.traverse_face lay _ _ h.2.2.2)
    (fun entry he st st1 =>
      (hst entry ((Server.traverse_perm lay s.m_tools).mem_iff.mp he) st st1).2)]

theorem Server.find_face (m m1 : List (String × Tool σ)) (name : String)
    (h : m.map Server.face = m1.map Server.face) :
    (Server.find m name = none → Server.find m1 name = none) ∧
    (∀ t, Server.find m name = some t →
      ∃ t1, Server.find m1 name = some t1 ∧ t1.Execute = t.Execute) := by
  induction m generalizing m1 with
  | nil =>
    cases m1 with
    | nil => simp [Server.find]
    | cons hd1 tl1 => simp at h
  | cons hd tl ih =>
    cases m1 with
    | nil => simp at h
    | cons hd1 tl1 =>
      obtain ⟨k, t0⟩ := hd
      obtain ⟨k1, t1⟩ := hd1
      simp only [List.map_cons, List.cons.injEq, Server.face, Prod.mk.injEq] at h
      obtain ⟨⟨hk, _, _, _, hex⟩, htl⟩ := h
      subst hk
      by_cases e : name = k
      · simp [Server.find, e, hex]
      · simp only [Server.find, e, if_false]
        exact ih tl1 htl

/-- The result of `Invoke` and the calls it makes do not depend on the states
of the tools when the documents the tools return do not. -/
theorem Server.Invoke_congr (s s1 : Server σ) (params : Json)
    (h : Server.sameRegistry s s1) (hst : Server.stateless s) :
    (Server.Invoke s params).events = (Server.Invoke s1 params).events ∧
      (Server.Invoke s params).result = (Server.Invoke s1 params).result := by
  unfold Server.Invoke
  cases hn : (Json.get_const params "name").bind Json.get_string with
  | error e => exact ⟨rfl, rfl⟩
  | ok name =>
    simp only
    obtain ⟨f1, f2⟩ := Server.find_face s.m_tools s1.m_tools name h.2.2.2
    cases hf : Server.find s.m_tools name with
    | none =>
      rw [f1 hf]
      exact ⟨rfl, rfl⟩
    | some t =>
      obtain ⟨t1, hf1, hex⟩ := f2 t hf
      rw [hf1]
      have hdoc : (t.Execute t1.state params).1 = (t.Execute t.state params).1 :=
        (hst (name, t) (Server.find_some_mem _ _ _ hf) t1.state t.state).1 params
      simp only [hex]
      exact ⟨trivial, by rw [hdoc]⟩

theorem Server.route_congr (lay : Layout) (s s1 : Server σ) (message : Json) (method : String)
    (h : Server.sameRegistry s s1) (hst : Server.stateless s) :
    (Server.HandleRequest.route lay s message method).events
        = (Server.HandleRequest.route lay s1 message method).events ∧
      (Server.HandleRequest.route lay s message method).result
        = (Server.HandleRequest.route lay s1 message method).result := by
  unfold Server.HandleRequest.route
  split_ifs
  · simp only [Server.Initialize, h.1, h.2.1, h.2.2.1, and_self]
  · rw [Server.ListTools_congr lay s s1 h hst]
    cases Server.ListTools lay s1 <;> exact ⟨rfl, rfl⟩
  · cases Json.get_const message "params" with
    | error e => exact ⟨rfl, rfl⟩
    | ok params => exact Server.Invoke_congr s s1 params h hst
  · exact ⟨rfl, rfl⟩

theorem Server.HandleRequest_congr (lay : Layout) (s s1 : Server σ) (message : Json)
    (h : Server.sameRegistry s s1) (hst : Server.stateless s) :
    (Server.HandleRequest lay s message).events = (Server.HandleRequest lay s1 message).events ∧
      (Server.HandleRequest lay s message).result
        = (Server.HandleRequest lay s1 message).result := by
  unfold Server.HandleRequest
  cases hm : (Json.get_const message "method").bind Json.get_string with
  | error e => exact ⟨rfl, rfl⟩
  | ok method =>
    simp only
    obtain ⟨he, hr⟩ := Server.route_congr lay s s1 message method h hst
    rw [he, hr]
    cases (Server.HandleRequest.route lay s1 message method).result with
    | error e => exact ⟨rfl, rfl⟩
    | ok response =>
      simp only
      cases Json.set response "jsonrpc" (Json.string "2.0") with
      | error e => exact ⟨rfl, rfl⟩
      | ok response1 =>
        simp only
        cases Json.get_const message "id" with
        | error e => exact ⟨rfl, rfl⟩
        | ok id =>
          simp only
          cases Json.set response1 "id" id <;> exact ⟨rfl, rfl⟩

theorem Server.HandleNotification_server (s : Server σ) (message : Json) :
    (Server.HandleNotification s message).server = s := by
  unfold Server.HandleNotification
  split
  · rfl
  · split_ifs <;> rfl

theorem Server.HandleNotification_congr (s s1 : Server σ) (message : Json) :
    (Server.HandleNotification s message).events
        = (Server.HandleNotification s1 message).events ∧
      (Server.HandleNotification s message).result
        = (Server.HandleNotification s1 message).result := by
  unfold Server.HandleNotification
  split
  · exact ⟨rfl, rfl⟩
  · split_ifs <;> exact ⟨rfl, rfl⟩

/-- The calls made in one turn of the run loop, and the way the turn ends, do
not depend on the states of the tools when the documents the tools return do
not. -/
theorem Server.turn_congr (lay : Layout) (s s1 : Server σ) (received : Option Json)
    (h : Server.sameRegistry s s1) (hst : Server.stateless s) :
    (Server.Run.turn lay s received).events = (Server.Run.turn lay s1 received).events ∧
      (Server.Run.turn lay s received).result = (Server.Run.turn lay s1 received).result := by
  unfold Server.Run.turn
  cases received with
  | none => exact ⟨rfl, rfl⟩
  | some message =>
    simp only
    cases (Json.get_const message "method").bind Json.get_string with
    | error e => exact ⟨rfl, rfl⟩
    | ok method =>
      simp only
      split_ifs
      · exact Server.HandleNotification_congr s s1 message
      · exact Server.HandleRequest_congr lay s s1 message h hst

theorem Server.Invoke_sameRegistry (s : Server σ) (params : Json) :
    Server.sameRegistry s (Server.Invoke s params).server := by
  unfold Server.Invoke
  cases (Json.get_const params "name").bind Json.get_string with
  | error e => exact Server.sameRegistry_refl s
  | ok name =>
    simp only
    cases hf : Server.find s.m_tools name with
    | none => exact Server.sameRegistry_refl s
    | some t =>
      refine ⟨rfl, rfl, rfl, ?_⟩
      exact (Server.store_face s.m_tools name t
        { t with state := (t.Execute t.state params).2 } hf rfl).symm

theorem Server.route_sameRegistry (lay : Layout) (s : Server σ) (message : Json)
    (method : String) :
    Server.sameRegistry s (Server.HandleRequest.route lay s message method).server := by
  unfold Server.HandleRequest.route
  split_ifs
  · exact Server.sameRegistry_refl s
  · cases Server.ListTools lay s <;> exact Server.sameRegistry_refl s
  · cases Json.get_const message "params" with
    | error e => exact Server.sameRegistry_refl s
    | ok params => exact Server.Invoke_sameRegistry s params
  · exact Server.sameRegistry_refl s

theorem Server.HandleRequest_sameRegistry (lay : Layout) (s : Server σ) (message : Json) :
    Server.sameRegistry s (Server.HandleRequest lay s message).server := by
  unfold Server.HandleRequest
  cases hm : (Json.get_const message "method").bind Json.get_string with
  | error e => exact Server.sameRegistry_refl s
  | ok method =>
    simp only
    have hr := Server.route_sameRegistry lay s message method
    cases (Server.HandleRequest.route lay s message method).result with
    | error e => exact hr
    | ok response =>
      simp only
      cases Json.set response "jsonrpc" (Json.string "2.0") with
      | error e => exact hr
      | ok response1 =>
        simp only
        cases Json.get_const message "id" with
        | error e => exact hr
        | ok id =>
          simp only
          cases Json.set response1 "id" id <;> exact hr

/-- A turn of the run loop changes nothing in the server but the states of
tools. -/
theorem Server.turn_sameRegistry (lay : Layout) (s : Server σ) (received : Option Json) :
    Server.sameRegistry s (Server.Run.turn lay s received).server := by
  unfold Server.Run.turn
  cases received with
  | none => exact Server.sameRegistry_refl s
  | some message =>
    simp only
    cases (Json.get_const message "method").bind Json.get_string with
    | error e => exact Server.sameRegistry_refl s
    | ok method =>
      simp only
      split_ifs
      · rw [Server.HandleNotification_server]
        exact Server.sameRegistry_refl s
      · exact Server.HandleRequest_sameRegistry lay s message

/-- The run loop changes nothing in the server but the states of tools. -/
theorem Server.Run_sameRegistry (lay : Layout) (s : Server σ) (input : List (Option Json)) :
    Server.sameRegistry s (Server.Run lay s input).server := by
  induction input generalizing s with
  | nil => exact Server.sameRegistry_refl s
  | cons x rest ih =>
    have ht := Server.turn_sameRegistry lay s x
    unfold Server.Run
    simp only
    cases (Server.Run.turn lay s x).result with
    | error e => exact ht
    | ok u => exact Server.sameRegistry_trans _ _ _ ht (ih _)

end handlers

/-! ## Requests and responses -/

section claims

variable {σ : Type}

theorem Server.HandleNotification_sent (s : Server σ) (message : Json) :
    sent (Server.HandleNotification s message).events = [] := by
  unfold Server.HandleNotification
  split
  · rfl
  · split_ifs <;> rfl

/-- A message with an `id`, a string `method` and a handler that completes is
answered by `HandleRequest` with exactly one response. -/
theorem Server.HandleRequest_answers (lay : Layout) (s : Server σ) (message : Json)
    (method : String) (id : Json)
    (hm : Json.field? message "method" = some (Json.string method))
    (hid : Json.field? message "id" = some id)
    (ha : Server.Answerable s message method) :
    ∃ r, sent (Server.HandleRequest lay s message).events = [r] ∧
      (Server.HandleRequest lay s message).result = Except.ok () ∧
      Json.field? r "jsonrpc" = some (Json.string "2.0") ∧
      Json.field? r "id" = some id := by
  obtain ⟨response, hr, ho⟩ := Server.route_completes lay s message method ha
  have h := Server.HandleRequest_of_route lay s message method id response hm hid hr ho
  have hmem : Json.object (Json.assign
      (Json.assign (Json.members response) "jsonrpc" (Json.string "2.0")) "id" id)
      ∈ sent (Server.HandleRequest lay s message).events := by
    rw [h]
    simp [sent_append, Server.route_sent, sent]
  obtain ⟨h1, h2, h3, id1, h4, h5⟩ := Server.HandleRequest_sent_inv lay s message _ hmem
  rw [hid] at h4
  cases h4
  exact ⟨_, h1, h2, h3, h5⟩

/-- C1 (counterexample): four decoded messages that `Run` routes to
`HandleRequest` and for which no response is sent: a `tools/call` whose
`params.name` is a number, an `initialize` without `id`, a `tools/call` of a tool
that returns a bare string, and a `tools/list` over a tool whose schema is an
array. -/
theorem C1_counterexample :
    (starts_with "tools/call" "notifications/" = false ∧
      sent (Server.Run.turn oldestFirst demo
        (some (callOf (Json.number 1) (Json.number 7)))).events = [] ∧
      (Server.Run.turn oldestFirst demo (some (callOf (Json.number 1) (Json.number 7)))).result
        = Except.error (Stop.failure (Failure.type_error 302))) ∧
    (sent (Server.Run.turn oldestFirst demo
        (some (Json.object [("method", Json.string "initialize")]))).events = [] ∧
      (Server.Run.turn oldestFirst demo
        (some (Json.object [("method", Json.string "initialize")]))).result
        = Except.error (Stop.failure Failure.assertion)) ∧
    (sent (Server.Run.turn oldestFirst demoBare
        (some (callOf (Json.number 1) (Json.string "bare")))).events = [] ∧
      executed (Server.Run.turn oldestFirst demoBare
        (some (callOf (Json.number 1) (Json.string "bare")))).events
        = [("bare", Json.object [("name", Json.string "bare")])] ∧
      (Server.Run.turn oldestFirst demoBare
        (some (callOf (Json.number 1) (Json.string "bare")))).result
        = Except.error (Stop.failure (Failure.type_error 305))) ∧
    (sent (Server.Run.turn oldestFirst demoBare
        (some (request (Json.number 1) "tools/list"))).events = [] ∧
      (Server.Run.turn oldestFirst demoBare (some (request (Json.number 1) "tools/list"))).result
        = Except.error (Stop.failure (Failure.type_error 305))) := by
  refine ⟨⟨by decide, rfl, rfl⟩, ⟨rfl, rfl⟩, ⟨rfl, rfl, rfl⟩, ⟨rfl, rfl⟩⟩

/-- C1 (amended): `HandleRequest` never sends more than one response, and a
response it sends carries `jsonrpc` equal to "2.0" and the `id` of the message;
it sends one, and returns, for every message with an `id` whose handler
completes: on `tools/list` when every registered schema is an object or null,
on `tools/call` when `params.name` is a string and the document of the named
tool is an object or null, and always on `initialize`, on an unknown method and
on an unknown tool. -/
theorem C1_one_response_with_id (lay : Layout) (s : Server σ) (message : Json) :
    (∀ r ∈ sent (Server.HandleRequest lay s message).events,
      sent (Server.HandleRequest lay s message).events = [r] ∧
      Json.field? r "jsonrpc" = some (Json.string "2.0") ∧
      ∃ id, Json.field? message "id" = some id ∧ Json.field? r "id" = some id) ∧
    (∀ method id, Json.field? message "method" = some (Json.string method) →
      Json.field? message "id" = some id →
      Server.Answerable s message method →
      ∃ r, sent (Server.HandleRequest lay s message).events = [r] ∧
        (Server.HandleRequest lay s message).result = Except.ok () ∧
        Json.field? r "jsonrpc" = some (Json.string "2.0") ∧
        Json.field? r "id" = some id) := by
  constructor
  · intro r hr
    obtain ⟨h1, _, h3, h4⟩ := Server.HandleRequest_sent_inv lay s message r hr
    exact ⟨h1, h3, h4⟩
  · intro method id hm hid ha
    exact Server.HandleRequest_answers lay s message method id hm hid ha

theorem callEcho_answerable (id : Json) :
    Server.Answerable demoEcho (callEcho id) "tools/call" := by
  constructor
  · intro h
    exact absurd h (by decide)
  · intro _
    refine ⟨_, "echo", rfl, rfl, ?_⟩
    intro tool hf
    have : tool = echo := by
      have h2 : Server.find demoEcho.m_tools "echo" = some echo := rfl
      rw [h2] at hf
      exact (Option.some.inj hf).symm
    subst this
    rfl

/-- C1 (witness): the request `tools/call` of `echo` with id 4 is answered
once, with `jsonrpc` "2.0" and id 4. -/
theorem C1_one_response_with_id_witness :
    ∃ r, sent (Server.HandleRequest oldestFirst demoEcho (callEcho (Json.number 4))).events = [r] ∧
      (Server.HandleRequest oldestFirst demoEcho (callEcho (Json.number 4))).result
        = Except.ok () ∧
      Json.field? r "jsonrpc" = some (Json.string "2.0") ∧
      Json.field? r "id" = some (Json.number 4) :=
  (C1_one_response_with_id oldestFirst demoEcho (callEcho (Json.number 4))).2
    "tools/call" (Json.number 4) rfl rfl (callEcho_answerable (Json.number 4))

/-- C2 (counterexample): the decoded message
`\x7b"id": 1, "method": "notifications/initialized"\x7d` has an `id` field, yet the
run loop sends no response to it and goes on. -/
theorem C2_counterexample :
    Json.field? (request (Json.number 1) "notifications/initialized") "id"
        = some (Json.number 1) ∧
      sent (Server.Run.turn oldestFirst demo
        (some (request (Json.number 1) "notifications/initialized"))).events = [] ∧
      (Server.Run.turn oldestFirst demo
        (some (request (Json.number 1) "notifications/initialized"))).result = Except.ok () := by
  refine ⟨rfl, rfl, rfl⟩

/-- C2 (amended): the run loop tells a notification from a request by the
method name. A message whose method starts with "notifications/" is sent no
response, with or without an `id`; a message without an `id` field is sent no
response whatever its method; a message with an `id` field whose method does
not start with "notifications/" is sent exactly one response when its handler
completes (`Answerable`). -/
theorem C2_routing_by_method_name (lay : Layout) (s : Server σ) (message : Json) :
    (∀ method, Json.field? message "method" = some (Json.string method) →
      starts_with method "notifications/" = true →
      sent (Server.Run.turn lay s (some message)).events = []) ∧
    (Json.field? message "id" = none →
      sent (Server.Run.turn lay s (some message)).events = []) ∧
    (∀ method id, Json.field? message "method" = some (Json.string method) →
      Json.field? message "id" = some id →
      starts_with method "notifications/" = false →
      Server.Answerable s message method →
      ∃ r, sent (Server.Run.turn lay s (some message)).events = [r] ∧
        (Server.Run.turn lay s (some message)).result = Except.ok ()) := by
  refine ⟨?_, ?_, ?_⟩
  · intro method hm hp
    unfold Server.Run.turn
    simp only [Json.get_const_of_field _ _ _ hm, Except.bind, Json.get_string, hp, if_true]
    exact Server.HandleNotification_sent s message
  · intro hid
    unfold Server.Run.turn
    simp only
    split
    · rfl
    · split
      · exact Server.HandleNotification_sent s message
      · cases hs : sent (Server.HandleRequest lay s message).events with
        | nil => rfl
        | cons r rest =>
          have hr : r ∈ sent (Server.HandleRequest lay s message).events := by simp [hs]
          obtain ⟨_, _, _, id, h4, _⟩ := Server.HandleRequest_sent_inv lay s message r hr
          rw [hid] at h4
          cases h4
  · intro method id hm hid hp ha
    unfold Server.Run.turn
    simp only [Json.get_const_of_field _ _ _ hm, Except.bind, Json.get_string, hp]
    obtain ⟨r, h1, h2, _, _⟩ := Server.HandleRequest_answers lay s message method id hm hid ha
    exact ⟨r, h1, h2⟩

/-- C2 (witness): `\x7b"method": "notifications/initialized"\x7d` is sent no response,
and the `tools/call` of `echo` with id 4 is sent exactly one. -/
theorem C2_routing_by_method_name_witness :
    sent (Server.Run.turn oldestFirst demoEcho
      (some (Json.object [("method", Json.string "notifications/initialized")]))).events = [] ∧
    ∃ r, sent (Server.Run.turn oldestFirst demoEcho (some (callEcho (Json.number 4)))).events = [r] ∧
      (Server.Run.turn oldestFirst demoEcho (some (callEcho (Json.number 4)))).result
        = Except.ok () :=
  ⟨(C2_routing_by_method_name oldestFirst demoEcho
      (Json.object [("method", Json.string "notifications/initialized")])).1
      "notifications/initialized" rfl (by decide),
   (C2_routing_by_method_name oldestFirst demoEcho (callEcho (Json.number 4))).2.2
      "tools/call" (Json.number 4) rfl rfl (by decide) (callEcho_answerable (Json.number 4))⟩

/-! ## The tool registry -/

/-- C3 (counterexample): after the successful `AddTool(bare)`, whose
`InputSchema()` is an array, `ListTools` raises `type_error` and produces no
`result.tools`. -/
theorem C3_counterexample :
    Server.addAll demo [bare] = some demoBare ∧
      Server.ListTools oldestFirst demoBare = Except.error (Failure.type_error 305) ∧
      Server.ListTools newestFirst demoBare = Except.error (Failure.type_error 305) := by
  refine ⟨rfl, rfl, rfl⟩

/-- C3 (amended): after successful `AddTool` calls of tools whose
`InputSchema()` is an object or null, the registered names are distinct and
`ListTools` returns `result.tools` holding, for the tools taken in some order,
one entry per tool with the name and description of that tool and its schema
with `type` set; the `type` of each such schema is "object". -/
theorem C3_tools_list_entries (lay : Layout) (n v : String) (c : Json)
    (ts : List (Tool σ)) (s : Server σ)
    (hadd : Server.addAll (Server.new n v c) ts = some s)
    (hschema : ∀ t ∈ ts, Json.isObjectOrNull (t.InputSchema t.state) = true) :
    (ts.map Tool.Name).Nodup ∧
    (∃ order : List (Tool σ), order.Perm ts ∧
      Server.ListTools lay s = Except.ok (Json.object [("result", Json.object
        [("tools", Json.array (order.map (fun t => Json.object
          [("description", Json.string (t.Description t.state)),
           ("inputSchema", Json.object
              (Json.assign (Json.members (t.InputSchema t.state)) "type" (Json.string "object"))),
           ("name", Json.string t.Name)])))])])) ∧
    (∀ t ∈ ts, Json.field? (Json.object
        (Json.assign (Json.members (t.InputSchema t.state)) "type" (Json.string "object"))) "type"
      = some (Json.string "object")) := by
  obtain ⟨hs, hnodup⟩ := Server.addAll_new ts n v c s hadd
  subst hs
  refine ⟨hnodup, ⟨(Server.traverse lay (ts.map (fun t => (t.Name, t)))).map Prod.snd, ?_, ?_⟩, ?_⟩
  · have hp := (Server.traverse_perm lay (ts.map (fun t => (t.Name, t)))).map Prod.snd
    simpa [List.map_map, Function.comp_def] using hp
  · rw [Server.ListTools_ok]
    · have hmap : ∀ (f : Tool σ → Json), (∀ t : Tool σ, f t = Server.advertised (t.Name, t)) →
          (Server.traverse lay (ts.map (fun t => (t.Name, t)))).map Server.advertised
            = ((Server.traverse lay (ts.map (fun t => (t.Name, t)))).map Prod.snd).map f := by
        intro f hf
        rw [List.map_map]
        apply List.map_congr_left
        intro e he
        have hm := (Server.traverse_perm lay (ts.map (fun t => (t.Name, t)))).mem_iff.mp he
        obtain ⟨t, _, rfl⟩ := List.mem_map.mp hm
        exact (hf t).symm
      rw [hmap _ (fun t => rfl)]
      rfl
    · intro e he
      obtain ⟨t, ht, rfl⟩ := List.mem_map.mp he
      exact hschema t ht
  · intro t _
    rw [Json.field_members_assign]
    simp

/-- C3 (witness): the registry built by `AddTool(echo)` and `AddTool(blank)`. -/
theorem C3_tools_list_entries_witness :
    ∃ order : List (Tool Nat), order.Perm [echo, blank] ∧
      Server.ListTools oldestFirst demoEchoBlank = Except.ok (Json.object [("result", Json.object
        [("tools", Json.array (order.map (fun t => Json.object
          [("description", Json.string (t.Description t.state)),
           ("inputSchema", Json.object
              (Json.assign (Json.members (t.InputSchema t.state)) "type" (Json.string "object"))),
           ("name", Json.string t.Name)])))])]) :=
  (C3_tools_list_entries oldestFirst "demo" "1.0" (Json.object []) [echo, blank] demoEchoBlank
    rfl (by
      intro t ht
      rcases List.mem_cons.mp ht with h | h
      · subst h; rfl
      · rcases List.mem_cons.mp h with h | h
        · subst h; rfl
        · simp at h)).2.1

/-- C9: for a registry built by successful `AddTool` calls of the tools `ts`,
`AddTool(tool)` throws exactly when some tool of `ts` has the same `Name()`, and
returns normally otherwise; when it throws the server is left as it was and the
name still maps to the tool of `ts` that bears it. -/
theorem C9_AddTool_duplicate (n v : String) (c : Json) (ts : List (Tool σ)) (s : Server σ)
    (tool : Tool σ) (hadd : Server.addAll (Server.new n v c) ts = some s) :
    ((∃ what, (Server.AddTool s tool).result
        = Except.error (Stop.failure (Failure.runtime_error what)))
      ↔ tool.Name ∈ ts.map Tool.Name) ∧
    ((Server.AddTool s tool).result = Except.ok () ↔ tool.Name ∉ ts.map Tool.Name) ∧
    (tool.Name ∈ ts.map Tool.Name →
      (Server.AddTool s tool).server = s ∧
      ∃ first ∈ ts, first.Name = tool.Name ∧
        Server.find (Server.AddTool s tool).server.m_tools tool.Name = some first) := by
  obtain ⟨hs, hnodup⟩ := Server.addAll_new ts n v c s hadd
  have hkeys : s.m_tools.map Prod.fst = ts.map Tool.Name := by
    rw [hs]
    simp [List.map_map, Function.comp_def]
  by_cases hp : tool.Name ∈ ts.map Tool.Name
  · have hp1 : tool.Name ∈ s.m_tools.map Prod.fst := by rw [hkeys]; exact hp
    rw [Server.AddTool_present s tool hp1]
    refine ⟨⟨fun _ => hp, fun _ => ⟨_, rfl⟩⟩, ⟨fun h => by simp at h, fun h => absurd hp h⟩, ?_⟩
    intro _
    obtain ⟨first, hf, hname⟩ := List.mem_map.mp hp
    refine ⟨rfl, first, hf, hname, ?_⟩
    rw [hs, ← hname]
    exact Server.find_map_named ts first hf hnodup
  · have hp1 : tool.Name ∉ s.m_tools.map Prod.fst := by rw [hkeys]; exact hp
    rw [Server.AddTool_fresh s tool hp1]
    refine ⟨⟨fun h => ?_, fun h => absurd h hp⟩, ⟨fun _ => hp, fun _ => rfl⟩, fun h => absurd h hp⟩
    obtain ⟨_, h1⟩ := h
    simp at h1

/-- C9 (witness): a second `AddTool(echo)` on the registry holding `echo` throws
and leaves the server as it was. -/
theorem C9_AddTool_duplicate_witness :
    (Server.AddTool demoEcho echo).server = demoEcho ∧
      ∃ first ∈ [echo], first.Name = echo.Name ∧
        Server.find (Server.AddTool demoEcho echo).server.m_tools echo.Name = some first :=
  (C9_AddTool_duplicate "demo" "1.0" (Json.object []) [echo] demoEcho echo rfl).2.2
    (by simp)

/-! ## `tools/call` -/

/-- C5: when `params.name` is a string that is no registered name, `Invoke`
returns the document with error code -32601 and message "Method not found",
makes no call (no `Execute`) and leaves the server as it was. -/
theorem C5_unknown_tool (s : Server σ) (params : Json) (name : String)
    (hn : Json.field? params "name" = some (Json.string name))
    (hu : name ∉ s.m_tools.map Prod.fst) :
    (Server.Invoke s params).result = Except.ok (Json.object [("error", Json.object
        [("code", Json.number (-32601)), ("message", Json.string "Method not found")])]) ∧
      (Server.Invoke s params).events = [] ∧
      (Server.Invoke s params).server = s := by
  rw [Server.Invoke_of_name s params name hn, (Server.find_eq_none_iff _ _).mpr hu]
  exact ⟨rfl, rfl, rfl⟩

/-- C5 (witness): the name "missing" on the registry holding `echo`. -/
theorem C5_unknown_tool_witness :
    (Server.Invoke demoEcho (Json.object [("name", Json.string "missing")])).result
        = Except.ok (Json.object [("error", Json.object
          [("code", Json.number (-32601)), ("message", Json.string "Method not found")])]) ∧
      (Server.Invoke demoEcho (Json.object [("name", Json.string "missing")])).events = [] ∧
      (Server.Invoke demoEcho (Json.object [("name", Json.string "missing")])).server
        = demoEcho :=
  C5_unknown_tool demoEcho (Json.object [("name", Json.string "missing")]) "missing" rfl
    (by decide)

/-- C6: a `tools/call` request whose `params.name` is registered makes exactly
one call of `Execute`, on the tool registered under that name, with the
request's `params`, and stores the tool it leaves under the same name; when the
tool answers `Tool::Result(t)` the one response sent has `jsonrpc`, the `id` of
the request and `result.content` equal to the one-element array holding the
text `t`. -/
theorem C6_call_registered (lay : Layout) (s : Server σ) (message params id : Json)
    (name : String) (tool : Tool σ)
    (hm : Json.field? message "method" = some (Json.string "tools/call"))
    (hid : Json.field? message "id" = some id)
    (hp : Json.field? message "params" = some params)
    (hn : Json.field? params "name" = some (Json.string name))
    (ht : Server.find s.m_tools name = some tool) :
    (Server.Invoke s params).events = [Event.Execute name params] ∧
    (Server.Invoke s params).result = Except.ok (tool.Execute tool.state params).1 ∧
    executed (Server.HandleRequest lay s message).events = [(name, params)] ∧
    (Server.HandleRequest lay s message).server.m_tools
      = Server.store s.m_tools name { tool with state := (tool.Execute tool.state params).2 } ∧
    (∀ t, (tool.Execute tool.state params).1 = Tool.Result t →
      sent (Server.HandleRequest lay s message).events =
        [Json.object [("id", id), ("jsonrpc", Json.string "2.0"),
          ("result", Json.object [("content", Json.array
            [Json.object [("text", Json.string t), ("type", Json.string "text")]])])]]) := by
  have hi : Server.Invoke s params =
      ⟨{ s with m_tools := (Server.store s.m_tools name
            { tool with state := (tool.Execute tool.state params).2 }) },
        [Event.Execute name params], Except.ok (tool.Execute tool.state params).1⟩ := by
    rw [Server.Invoke_of_name s params name hn, ht]
  have hroute := Server.route_call_params lay s message params hp
  obtain ⟨f1, f2⟩ := Server.HandleRequest_frame lay s message "tools/call" hm
  refine ⟨by rw [hi], by rw [hi], ?_, ?_, ?_⟩
  · rw [f2, hroute, hi]
    rfl
  · rw [f1, hroute, hi]
  · intro t het
    rw [Server.HandleRequest_of_route lay s message "tools/call" id (Tool.Result t) hm hid
      (by rw [hroute, hi, het]) rfl, hroute, hi]
    rfl

/-- C6 (witness): the request `tools/call` of `echo` with the text "hi" and
id 4. -/
theorem C6_call_registered_witness :
    executed (Server.HandleRequest oldestFirst demoEcho (callEcho (Json.number 4))).events
      = [("echo", Json.object [("arguments", Json.object [("text", Json.string "hi")]),
          ("name", Json.string "echo")])] ∧
    sent (Server.HandleRequest oldestFirst demoEcho (callEcho (Json.number 4))).events =
      [Json.object [("id", Json.number 4), ("jsonrpc", Json.string "2.0"),
        ("result", Json.object [("content", Json.array
          [Json.object [("text", Json.string "hi"), ("type", Json.string "text")]])])]] :=
  ⟨(C6_call_registered oldestFirst demoEcho (callEcho (Json.number 4)) _ (Json.number 4)
      "echo" echo rfl rfl rfl rfl rfl).2.2.1,
   (C6_call_registered oldestFirst demoEcho (callEcho (Json.number 4)) _ (Json.number 4)
      "echo" echo rfl rfl rfl rfl rfl).2.2.2.2 "hi" rfl⟩

/-- C7: when the tool registered under `params.name` answers
`Tool::Error(c, m)`, the one response sent has `error` equal to the document
with code `c` and message `m`, has no `result`, agrees with the tool's document
on every field other than `jsonrpc` and `id`, and is that error with the
request's `id` and `jsonrpc` "2.0". -/
theorem C7_tool_error_passed_through (lay : Layout) (s : Server σ)
    (message params id : Json) (name : String) (tool : Tool σ) (c : Int) (m : String)
    (hm : Json.field? message "method" = some (Json.string "tools/call"))
    (hid : Json.field? message "id" = some id)
    (hp : Json.field? message "params" = some params)
    (hn : Json.field? params "name" = some (Json.string name))
    (ht : Server.find s.m_tools name = some tool)
    (he : (tool.Execute tool.state params).1 = Tool.Error c m) :
    ∃ r, sent (Server.HandleRequest lay s message).events = [r] ∧
      Json.field? r "error" = some (Json.object
        [("code", Json.number c), ("message", Json.string m)]) ∧
      Json.field? r "result" = none ∧
      (∀ k, k ≠ "jsonrpc" → k ≠ "id" → Json.field? r k = Json.field? (Tool.Error c m) k) ∧
      r = Json.object [("error", Json.object
          [("code", Json.number c), ("message", Json.string m)]),
        ("id", id), ("jsonrpc", Json.string "2.0")] := by
  have hi : Server.Invoke s params =
      ⟨{ s with m_tools := (Server.store s.m_tools name
            { tool with state := (tool.Execute tool.state params).2 }) },
        [Event.Execute name params], Except.ok (Tool.Error c m)⟩ := by
    rw [Server.Invoke_of_name s params name hn, ht]
    simp only [he]
  have hroute := Server.route_call_params lay s message params hp
  have hh := Server.HandleRequest_of_route lay s message "tools/call" id (Tool.Error c m) hm hid
    (by rw [hroute, hi]) rfl
  refine ⟨Json.object (Json.assign (Json.assign (Json.members (Tool.Error c m)) "jsonrpc"
    (Json.string "2.0")) "id" id), ?_, ?_, ?_, ?_, ?_⟩
  · rw [hh, hroute, hi]
    rfl
  · rw [Json.envelope_field, if_neg (by decide), if_neg (by decide)]
    rfl
  · rw [Json.envelope_field, if_neg (by decide), if_neg (by decide)]
    rfl
  · intro k h1 h2
    rw [Json.envelope_field, if_neg h2, if_neg h1]
  · rfl

/-- C7 (witness): `echo` called without arguments answers
`Tool::Error(7, "no text")`. -/
theorem C7_tool_error_passed_through_witness :
    ∃ r, sent (Server.HandleRequest oldestFirst demoEcho (callEchoBare (Json.number 5))).events
        = [r] ∧
      Json.field? r "error" = some (Json.object
        [("code", Json.number 7), ("message", Json.string "no text")]) ∧
      Json.field? r "result" = none ∧
      (∀ k, k ≠ "jsonrpc" → k ≠ "id" →
        Json.field? r k = Json.field? (Tool.Error 7 "no text") k) ∧
      r = Json.object [("error", Json.object
          [("code", Json.number 7), ("message", Json.string "no text")]),
        ("id", Json.number 5), ("jsonrpc", Json.string "2.0")] :=
  C7_tool_error_passed_through oldestFirst demoEcho (callEchoBare (Json.number 5)) _
    (Json.number 5) "echo" echo 7 "no text" rfl rfl rfl rfl rfl rfl

/-- C8 (counterexample): the response to a `tools/call` of `blank`, whose
`Execute` returns an empty object, has neither `result` nor `error`; the
response to a `tools/call` of `twofold` has both. -/
theorem C8_counterexample :
    sent (Server.HandleRequest oldestFirst demoBlank
        (callOf (Json.number 1) (Json.string "blank"))).events
      = [Json.object [("id", Json.number 1), ("jsonrpc", Json.string "2.0")]] ∧
    Json.contains (Json.object [("id", Json.number 1), ("jsonrpc", Json.string "2.0")])
      "result" = false ∧
    Json.contains (Json.object [("id", Json.number 1), ("jsonrpc", Json.string "2.0")])
      "error" = false ∧
    sent (Server.HandleRequest oldestFirst demoTwofold
        (callOf (Json.number 1) (Json.string "twofold"))).events
      = [Json.object [("error", Json.null), ("id", Json.number 1),
          ("jsonrpc", Json.string "2.0"), ("result", Json.null)]] ∧
    Json.contains (Json.object [("error", Json.null), ("id", Json.number 1),
      ("jsonrpc", Json.string "2.0"), ("result", Json.null)]) "result" = true ∧
    Json.contains (Json.object [("error", Json.null), ("id", Json.number 1),
      ("jsonrpc", Json.string "2.0"), ("result", Json.null)]) "error" = true := by
  refine ⟨rfl, rfl, rfl, rfl, rfl, rfl⟩

/-- C8 (amended): a response sent by `HandleRequest` contains exactly one of
`result` and `error` whenever the `S_SWITCH` does not take the method for
`tools/call` (on `initialize`, on `tools/list` and on an unknown method), and
on a `tools/call` that names no registered tool. The response to a `tools/call`
of a registered tool has its `result` and its `error` exactly as the document
returned by that tool has them. Hence every response contains exactly one of the
two when the documents returned by the registered tools do. -/
theorem C8_result_xor_error (lay : Layout) (s : Server σ) (message r : Json)
    (method : String)
    (hm : Json.field? message "method" = some (Json.string method))
    (hr : r ∈ sent (Server.HandleRequest lay s message).events) :
    (S_SWITCH method ≠ S_CASE "tools/call" → Json.oneOfResultError r = true) ∧
    (S_SWITCH method = S_CASE "tools/call" →
      ∃ params name, Json.field? message "params" = some params ∧
        Json.field? params "name" = some (Json.string name) ∧
        (name ∉ s.m_tools.map Prod.fst → Json.oneOfResultError r = true) ∧
        (∀ tool, Server.find s.m_tools name = some tool →
          Json.field? r "result"
            = Json.field? (tool.Execute tool.state params).1 "result" ∧
          Json.field? r "error"
            = Json.field? (tool.Execute tool.state params).1 "error")) ∧
    ((∀ entry ∈ s.m_tools, ∀ params,
        Json.oneOfResultError (entry.2.Execute entry.2.state params).1 = true) →
      Json.oneOfResultError r = true) := by
  obtain ⟨method1, response, id, hm1, hres, _, _, hshape⟩ :=
    Server.HandleRequest_sent_shape lay s message r hr
  rw [hm] at hm1
  cases hm1
  obtain ⟨hother, hcall⟩ := Server.route_result_by_method lay s message method response hres
  have hone : Json.oneOfResultError r = Json.oneOfResultError response := by
    rw [hshape, Json.oneOfResultError_envelope]
  refine ⟨fun hne => ?_, fun hc => ?_, fun htools => ?_⟩
  · rw [hone]
    exact hother hne
  · obtain ⟨params, name, hp, hn, hnone, hsome⟩ := hcall hc
    refine ⟨params, name, hp, hn, ?_, ?_⟩
    · intro hu
      rw [hone, hnone ((Server.find_eq_none_iff _ _).mpr hu)]
      rfl
    · intro tool hf
      rw [hshape, Json.envelope_field, Json.envelope_field, if_neg (by decide),
        if_neg (by decide), if_neg (by decide), if_neg (by decide), hsome tool hf]
      exact ⟨rfl, rfl⟩
  · rw [hone]
    by_cases hc : S_SWITCH method = S_CASE "tools/call"
    · obtain ⟨params, name, _, _, hnone, hsome⟩ := hcall hc
      cases hf : Server.find s.m_tools name with
      | none =>
        rw [hnone hf]
        rfl
      | some tool =>
        rw [hsome tool hf]
        exact htools (name, tool) (Server.find_some_mem _ _ _ hf) params
    · exact hother hc

/-- C8 (witness): on the registry holding `blank`, the response to an
`initialize` request whose `params.name` is "blank" contains exactly one of
`result` and `error`; on the registry holding `echo`, the response to the
`tools/call` of `echo` with id 4 has `result` and `error` as the document of
`echo` has them, and contains exactly one of the two. -/
theorem C8_result_xor_error_witness :
    Json.oneOfResultError (Json.object [("id", Json.number 1), ("jsonrpc", Json.string "2.0"),
      ("result", Json.object
        [("capabilities", Json.object []),
         ("protocolVersion", Json.string "2024-11-05"),
         ("serverInfo", Json.object
            [("name", Json.string "demo"), ("version", Json.string "1.0")])])]) = true ∧
    (∃ params name, Json.field? (callEcho (Json.number 4)) "params" = some params ∧
      Json.field? params "name" = some (Json.string name) ∧
      (name ∉ demoEcho.m_tools.map Prod.fst →
        Json.oneOfResultError (Json.object [("id", Json.number 4),
          ("jsonrpc", Json.string "2.0"),
          ("result", Json.object [("content", Json.array
            [Json.object [("text", Json.string "hi"), ("type", Json.string "text")]])])])
          = true) ∧
      (∀ tool, Server.find demoEcho.m_tools name = some tool →
        Json.field? (Json.object [("id", Json.number 4), ("jsonrpc", Json.string "2.0"),
            ("result", Json.object [("content", Json.array
              [Json.object [("text", Json.string "hi"), ("type", Json.string "text")]])])])
            "result"
          = Json.field? (tool.Execute tool.state params).1 "result" ∧
        Json.field? (Json.object [("id", Json.number 4), ("jsonrpc", Json.string "2.0"),
            ("result", Json.object [("content", Json.array
              [Json.object [("text", Json.string "hi"), ("type", Json.string "text")]])])])
            "error"
          = Json.field? (tool.Execute tool.state params).1 "error")) ∧
    Json.oneOfResultError (Json.object [("id", Json.number 4), ("jsonrpc", Json.string "2.0"),
      ("result", Json.object [("content", Json.array
        [Json.object [("text", Json.string "hi"), ("type", Json.string "text")]])])]) = true :=
  ⟨(C8_result_xor_error oldestFirst demoBlank
      (Json.object [("id", Json.number 1), ("method", Json.string "initialize"),
        ("params", Json.object [("name", Json.string "blank")])]) _ "initialize" rfl
      (List.Mem.head [])).1 (by decide),
   (C8_result_xor_error oldestFirst demoEcho (callEcho (Json.number 4)) _ "tools/call" rfl
      (List.Mem.head [])).2.1 rfl,
   (C8_result_xor_error oldestFirst demoEcho (callEcho (Json.number 4)) _ "tools/call" rfl
      (List.Mem.head [])).2.2
    (by
      intro entry he params
      have hm : demoEcho.m_tools = [("echo", echo)] := rfl
      rw [hm] at he
      rcases List.mem_cons.mp he with h | h
      · subst h
        show Json.oneOfResultError (echo.Execute echo.state params).1 = true
        unfold echo
        simp only
        split <;> rfl
      · simp at h)⟩

/-! ## `initialize` -/

/-- C10: on a server constructed with name `n`, version `v` and capabilities
`c`, whatever tools were added since, an `initialize` request with id `id` is
answered by the one response with `jsonrpc` "2.0", that `id` and `result` equal
to the protocol version "2024-11-05", the server info of `n` and `v`, and `c`
itself; the server is left as it was. -/
theorem C10_initialize (lay : Layout) (n v : String) (c : Json) (ts : List (Tool σ))
    (s : Server σ) (message id : Json)
    (hadd : Server.addAll (Server.new n v c) ts = some s)
    (hm : Json.field? message "method" = some (Json.string "initialize"))
    (hid : Json.field? message "id" = some id) :
    Server.HandleRequest lay s message =
      ⟨s, [Event.Send (Json.object [("id", id), ("jsonrpc", Json.string "2.0"),
        ("result", Json.object
          [("capabilities", c),
           ("protocolVersion", Json.string "2024-11-05"),
           ("serverInfo", Json.object
              [("name", Json.string n), ("version", Json.string v)])])])],
        Except.ok ()⟩ := by
  obtain ⟨hs, _⟩ := Server.addAll_new ts n v c s hadd
  rw [Server.HandleRequest_of_route lay s message "initialize" id (Server.Initialize s) hm hid
    (by rw [Server.route_initialize]) rfl, Server.route_initialize, hs]
  rfl

/-- C10 (witness): name "demo", version "1.0", capabilities the empty object
and request id 1. -/
theorem C10_initialize_witness :
    Server.HandleRequest oldestFirst demo
        (Json.object [("id", Json.number 1), ("jsonrpc", Json.string "2.0"),
          ("method", Json.string "initialize"), ("params", Json.object [])]) =
      ⟨demo, [Event.Send (Json.object [("id", Json.number 1), ("jsonrpc", Json.string "2.0"),
        ("result", Json.object
          [("capabilities", Json.object []),
           ("protocolVersion", Json.string "2024-11-05"),
           ("serverInfo", Json.object
              [("name", Json.string "demo"), ("version", Json.string "1.0")])])])],
        Except.ok ()⟩ :=
  C10_initialize oldestFirst "demo" "1.0" (Json.object []) [] demo _ (Json.number 1) rfl rfl rfl

/-! ## The run loop -/

/-- The run loop on two batches of texts: the second batch is handled, by the
server the first batch leaves, only when the first batch did not stop the
loop. -/
theorem Server.Run_append (lay : Layout) (s : Server σ) (a b : List (Option Json)) :
    Server.Run lay s (a ++ b) =
      match (Server.Run lay s a).result with
      | Except.error _ => Server.Run lay s a
      | Except.ok _ =>
        ⟨(Server.Run lay (Server.Run lay s a).server b).server,
          (Server.Run lay s a).events ++ (Server.Run lay (Server.Run lay s a).server b).events,
          (Server.Run lay (Server.Run lay s a).server b).result⟩ := by
  induction a generalizing s with
  | nil => simp [Server.Run]
  | cons x rest ih =>
    simp only [List.cons_append, Server.Run]
    cases hx : (Server.Run.turn lay s x).result with
    | error e => simp
    | ok u =>
      simp only
      have e : rest.append b = rest ++ b := rfl
      rw [e, ih]
      cases hr : (Server.Run lay (Server.Run.turn lay s x).server rest).result with
      | error e => simp [hr]
      | ok u1 => simp [List.append_assoc]

/-- The turn of the run loop on a `notifications/cancelled` notification. -/
theorem Server.turn_cancelled (lay : Layout) (s : Server σ) (message : Json)
    (hm : Json.field? message "method" = some (Json.string "notifications/cancelled")) :
    Server.Run.turn lay s (some message) = ⟨s, [], Except.error (Stop.exit 0)⟩ := by
  rw [Server.turn_notification lay s message "notifications/cancelled" hm (by decide)]
  unfold Server.HandleNotification
  rw [Json.get_const_of_field _ _ _ hm]
  simp only [Except.bind, Json.get_string]
  rw [if_neg (by decide), if_pos (by decide)]

/-- C12: when the run loop, still running after the texts `before`, receives a
`notifications/cancelled` notification, it exits: the calls made are those made
for `before` alone, so nothing is sent for the notification and none of the
texts `later` is dispatched or answered; whatever `before` holds, the texts from
the notification on add no call and change nothing in the server. -/
theorem C12_cancelled_terminates (lay : Layout) (s : Server σ)
    (before later : List (Option Json)) (message : Json)
    (hm : Json.field? message "method" = some (Json.string "notifications/cancelled")) :
    ((Server.Run lay s before).result = Except.ok () →
      Server.Run lay s (before ++ some message :: later) =
        ⟨(Server.Run lay s before).server, (Server.Run lay s before).events,
          Except.error (Stop.exit 0)⟩) ∧
    (Server.Run lay s (before ++ some message :: later)).events
      = (Server.Run lay s before).events ∧
    (Server.Run lay s (before ++ some message :: later)).server
      = (Server.Run lay s before).server ∧
    (Server.Run lay s (before ++ some message :: later)).result ≠ Except.ok () := by
  have hc : Server.Run lay (Server.Run lay s before).server (some message :: later)
      = ⟨(Server.Run lay s before).server, [], Except.error (Stop.exit 0)⟩ := by
    simp [Server.Run, Server.turn_cancelled lay _ message hm]
  rw [Server.Run_append, hc]
  cases hr : (Server.Run lay s before).result with
  | error e => simp [hr]
  | ok u => simp

/-- C12 (witness): after an `initialize` request, a `notifications/cancelled`
notification stops the loop before the `tools/list` request that follows it. -/
theorem C12_cancelled_terminates_witness :
    Server.Run oldestFirst demoEcho
        ([some (request (Json.number 1) "initialize")] ++
          some cancelled :: [some (request (Json.number 2) "tools/list")]) =
      ⟨(Server.Run oldestFirst demoEcho [some (request (Json.number 1) "initialize")]).server,
        (Server.Run oldestFirst demoEcho [some (request (Json.number 1) "initialize")]).events,
        Except.error (Stop.exit 0)⟩ :=
  (C12_cancelled_terminates oldestFirst demoEcho [some (request (Json.number 1) "initialize")]
    [some (request (Json.number 2) "tools/list")] cancelled rfl).1 rfl

/-- C16: on every received text the run loop sends nothing or sends one
response whose `id` is that of the decoded message; on a text that is not
decoded to a document with a string `method` (rejected text, no `method`,
`method` not a string) it makes no call, leaves the server as it was and stops
with a failure. -/
theorem C16_undecodable_text (lay : Layout) (s : Server σ) (received : Option Json) :
    (sent (Server.Run.turn lay s received).events = [] ∨
      ∃ message r id, received = some message ∧
        sent (Server.Run.turn lay s received).events = [r] ∧
        Json.field? message "id" = some id ∧ Json.field? r "id" = some id) ∧
    ((∀ message, received = some message →
        ∀ method, Json.field? message "method" ≠ some (Json.string method)) →
      (Server.Run.turn lay s received).events = [] ∧
      (Server.Run.turn lay s received).server = s ∧
      ∃ e, (Server.Run.turn lay s received).result = Except.error (Stop.failure e)) := by
  constructor
  · cases received with
    | none => left; rfl
    | some message =>
      unfold Server.Run.turn
      simp only
      split
      · left; rfl
      · split
        · left; exact Server.HandleNotification_sent s message
        · cases hs : sent (Server.HandleRequest lay s message).events with
          | nil => left; rfl
          | cons r rest =>
            right
            have hr : r ∈ sent (Server.HandleRequest lay s message).events := by simp [hs]
            obtain ⟨h1, _, _, id, h4, h5⟩ := Server.HandleRequest_sent_inv lay s message r hr
            rw [hs] at h1
            exact ⟨message, r, id, rfl, h1, h4, h5⟩
  · intro h
    cases received with
    | none => exact ⟨rfl, rfl, _, rfl⟩
    | some message =>
      unfold Server.Run.turn
      simp only
      cases hg : (Json.get_const message "method").bind Json.get_string with
      | error e => exact ⟨rfl, rfl, e, rfl⟩
      | ok method => exact absurd (Json.string_of_get _ _ _ hg) (h message rfl method)

/-- C16 (witness): a rejected text, a document without `method` and a document
whose `method` is a number each stop the loop with nothing sent. -/
theorem C16_undecodable_text_witness :
    ((Server.Run.turn oldestFirst demoEcho none).events = [] ∧
      (Server.Run.turn oldestFirst demoEcho none).server = demoEcho ∧
      ∃ e, (Server.Run.turn oldestFirst demoEcho none).result
        = Except.error (Stop.failure e)) ∧
    ((Server.Run.turn oldestFirst demoEcho
        (some (Json.object [("id", Json.number 1), ("method", Json.number 5)]))).events = [] ∧
      (Server.Run.turn oldestFirst demoEcho
        (some (Json.object [("id", Json.number 1), ("method", Json.number 5)]))).server
        = demoEcho ∧
      ∃ e, (Server.Run.turn oldestFirst demoEcho
        (some (Json.object [("id", Json.number 1), ("method", Json.number 5)]))).result
        = Except.error (Stop.failure e)) :=
  ⟨(C16_undecodable_text oldestFirst demoEcho none).2 (by intro m h; cases h),
   (C16_undecodable_text oldestFirst demoEcho
      (some (Json.object [("id", Json.number 1), ("method", Json.number 5)]))).2 (by
        intro m h method hm
        cases h
        simp [Json.field?, Json.find] at hm)⟩

/-! ## The hash switch -/

theorem charToSizeT_ascii (b : Nat) (h : b < 128) : charToSizeT b = b := by
  simp [charToSizeT, h]

/-- C18 (counterexample): on the two bytes C3 A9 of "é" and on the three bytes
of "a", NUL, "b" the value of `fnv1a_hash` differs from the FNV-1a hash of all
the bytes taken as unsigned values: a byte from 0x80 up is sign-extended before
the XOR, and reading stops at the NUL. -/
theorem C18_counterexample :
    data "é" = [0xC3, 0xA9] ∧
    fnv1a_hash (data "é") 14695981039346656037
      ≠ fnv1a_standard (data "é") 14695981039346656037 ∧
    data "a\x00b" = [97, 0, 98] ∧
    fnv1a_hash (data "a\x00b") 14695981039346656037
      ≠ fnv1a_standard (data "a\x00b") 14695981039346656037 ∧
    fnv1a_hash (data "a\x00b") 14695981039346656037
      = fnv1a_standard (data "a") 14695981039346656037 := by
  refine ⟨by decide, by decide, by decide, by decide, by decide⟩

/-- C18 (amended): on bytes that are all in the range 1..127, from any starting
value, `fnv1a_hash` is the 64-bit FNV-1a hash of all the bytes; this holds for
the five method names used as case labels in `server.h`, and the hashes of
these five names are pairwise distinct. -/
theorem C18_fnv1a_on_ascii (str : List Nat) (value : Nat)
    (h : ∀ b ∈ str, 0 < b ∧ b < 128) :
    fnv1a_hash str value = fnv1a_standard str value ∧
    (∀ label ∈ ["initialize", "tools/list", "tools/call", "notifications/initialized",
        "notifications/cancelled"],
      S_CASE label = fnv1a_standard (data label) 14695981039346656037) ∧
    [S_CASE "initialize", S_CASE "tools/list", S_CASE "tools/call",
      S_CASE "notifications/initialized", S_CASE "notifications/cancelled"].Nodup := by
  refine ⟨?_, by decide, by decide⟩
  induction str generalizing value with
  | nil => rfl
  | cons b rest ih =>
    have hb := h b (by simp)
    have hne : b ≠ 0 := by omega
    unfold fnv1a_hash fnv1a_standard
    rw [if_neg hne, charToSizeT_ascii b hb.2]
    exact ih _ (fun c hc => h c (by simp [hc]))

/-- C18 (witness): the bytes of "tools/call" from the offset basis. -/
theorem C18_fnv1a_on_ascii_witness :
    fnv1a_hash (data "tools/call") 14695981039346656037
      = fnv1a_standard (data "tools/call") 14695981039346656037 :=
  (C18_fnv1a_on_ascii (data "tools/call") 14695981039346656037 (by decide)).1

/-- C11 (failing input): the requests whose method is "initialize" or
"tools/list" followed by a NUL character and "x" are not answered with the
error -32601: `Run` routes them to `HandleRequest`, whose `S_SWITCH` takes them
for `initialize` and `tools/list`. -/
theorem C11_nul_extended_method :
    "initialize\x00x" ≠ "initialize" ∧ "initialize\x00x" ≠ "tools/list" ∧
    "initialize\x00x" ≠ "tools/call" ∧
    Server.Run.turn oldestFirst demoEcho (some (request (Json.number 1) "initialize\x00x")) =
      ⟨demoEcho, [Event.Send (Json.object [("id", Json.number 1),
        ("jsonrpc", Json.string "2.0"),
        ("result", Json.object
          [("capabilities", Json.object []),
           ("protocolVersion", Json.string "2024-11-05"),
           ("serverInfo", Json.object
              [("name", Json.string "demo"), ("version", Json.string "1.0")])])])],
        Except.ok ()⟩ ∧
    "tools/list\x00x" ≠ "tools/list" ∧
    Server.Run.turn oldestFirst demoEcho (some (request (Json.number 2) "tools/list\x00x")) =
      ⟨demoEcho, [Event.Send (Json.object [("id", Json.number 2),
        ("jsonrpc", Json.string "2.0"),
        ("result", Json.object
          [("tools", Json.array [Server.advertised ("echo", echo)])])])],
        Except.ok ()⟩ := by
  refine ⟨by decide, by decide, by decide, rfl, by decide, rfl⟩

/-- C14 (failing input): the notification whose method is
"notifications/cancelled" followed by a NUL character and "x" is not a no-op:
the `S_SWITCH` of `HandleNotification` takes it for `notifications/cancelled`
and the run loop exits. -/
theorem C14_nul_extended_notification :
    "notifications/cancelled\x00x" ≠ "notifications/cancelled" ∧
    starts_with "notifications/cancelled\x00x" "notifications/" = true ∧
    Server.HandleNotification demoEcho
        (Json.object [("method", Json.string "notifications/cancelled\x00x")]) =
      ⟨demoEcho, [], Except.error (Stop.exit 0)⟩ ∧
    Server.Run oldestFirst demoEcho
        [some (Json.object [("method", Json.string "notifications/cancelled\x00x")]),
         some (request (Json.number 1) "initialize")] =
      ⟨demoEcho, [], Except.error (Stop.exit 0)⟩ := by
  refine ⟨by decide, by decide, rfl, rfl⟩

/-- C17: for a tool whose `InputSchema()` is an object, the `inputSchema` that
`ListTools` advertises is the document that `["type"] = "object"` makes of the
tool's schema: its `type` is "object", it agrees with the tool's schema on every
other key, and the same assignment on it leaves it as it is. When the tool is
registered, and the other schemas are objects or null, `ListTools` returns and
the entry with this schema is in `result.tools`. -/
theorem C17_schema_normalisation (lay : Layout) (s : Server σ) (entry : String × Tool σ)
    (m : List (String × Json)) (hm : (entry.2.InputSchema entry.2.state) = Json.object m) :
    (∃ norm,
      Json.set (entry.2.InputSchema entry.2.state) "type" (Json.string "object") = Except.ok norm ∧
      Json.field? (Server.advertised entry) "inputSchema" = some norm ∧
      Json.field? norm "type" = some (Json.string "object") ∧
      (∀ k, k ≠ "type" → Json.field? norm k = Json.field? (entry.2.InputSchema entry.2.state) k) ∧
      Json.set norm "type" (Json.string "object") = Except.ok norm) ∧
    (entry ∈ s.m_tools →
      (∀ other ∈ s.m_tools, Json.isObjectOrNull (other.2.InputSchema other.2.state) = true) →
      ∃ entries, Server.ListTools lay s = Except.ok (Json.object [("result", Json.object
          [("tools", Json.array entries)])]) ∧
        Server.advertised entry ∈ entries) := by
  constructor
  · refine ⟨Json.object (Json.assign m "type" (Json.string "object")), ?_, ?_, ?_, ?_, ?_⟩
    · rw [hm]
      rfl
    · unfold Server.advertised
      rw [hm]
      rfl
    · rw [Json.field_members_assign]
      simp
    · intro k hk
      rw [Json.field_members_assign, if_neg hk, hm]
      rfl
    · show Except.ok (Json.object (Json.assign (Json.assign m "type" (Json.string "object"))
        "type" (Json.string "object"))) = _
      rw [Json.assign_idem]
  · intro he hs
    refine ⟨_, Server.ListTools_ok lay s hs, ?_⟩
    exact List.mem_map.mpr ⟨entry, (Server.traverse_perm lay s.m_tools).mem_iff.mpr he, rfl⟩

/-- C17 (witness): the schema of `typed`, whose `type` is "array", and the
registry that holds `typed`. -/
theorem C17_schema_normalisation_witness :
    (∃ norm,
      Json.set (typed.InputSchema typed.state) "type" (Json.string "object") = Except.ok norm ∧
      Json.field? (Server.advertised ("typed", typed)) "inputSchema" = some norm ∧
      Json.field? norm "type" = some (Json.string "object") ∧
      (∀ k, k ≠ "type" → Json.field? norm k = Json.field? (typed.InputSchema typed.state) k) ∧
      Json.set norm "type" (Json.string "object") = Except.ok norm) ∧
    ∃ entries, Server.ListTools oldestFirst demoTyped = Except.ok (Json.object
        [("result", Json.object [("tools", Json.array entries)])]) ∧
      Server.advertised ("typed", typed) ∈ entries :=
  ⟨(C17_schema_normalisation oldestFirst demoTyped ("typed", typed) _ rfl).1,
   (C17_schema_normalisation oldestFirst demoTyped ("typed", typed) _ rfl).2
      (List.Mem.head []) (by
        intro other ho
        have hm : demoTyped.m_tools = [("typed", typed)] := rfl
        rw [hm] at ho
        rcases List.mem_cons.mp ho with h | h
        · subst h
          rfl
        · simp at h)⟩

/-! ## Failures of single messages -/

/-- C13 (counterexample): `flaky` reports an error on its first call only. The
`tools/call` with id 2 that follows the failed call with id 1 is answered with a
result, whereas without the failed call it is answered with the error. -/
theorem C13_counterexample :
    sent (Server.Run oldestFirst demoFlaky
        [some (callOf (Json.number 1) (Json.string "flaky")),
         some (callOf (Json.number 2) (Json.string "flaky"))]).events
      = [Json.object [("error", Json.object
            [("code", Json.number 1), ("message", Json.string "busy")]),
          ("id", Json.number 1), ("jsonrpc", Json.string "2.0")],
         Json.object [("id", Json.number 2), ("jsonrpc", Json.string "2.0"),
          ("result", Json.object [("content", Json.array
            [Json.object [("text", Json.string "ready"), ("type", Json.string "text")]])])]] ∧
    sent (Server.Run oldestFirst demoFlaky
        [some (callOf (Json.number 2) (Json.string "flaky"))]).events
      = [Json.object [("error", Json.object
            [("code", Json.number 1), ("message", Json.string "busy")]),
          ("id", Json.number 2), ("jsonrpc", Json.string "2.0")]] := by
  refine ⟨rfl, rfl⟩

/-- C13 (amended): a request (with `id`, method not starting with
"notifications/") that fails is answered with an error response and the loop
goes on with the texts `rest`. When the method hash is none of the three case
labels, or the method is `tools/call` and names no registered tool, the
response is the error -32601 and `rest` is handled by the unchanged server.
When the tool of a `tools/call` answers `Tool::Error(c, m)`, the response
carries that error and `rest` is handled by the server in which only the state
of that tool is replaced by the one its `Execute` left: identity, capabilities,
names and the methods of the tools (`Description`, `InputSchema`, `Execute`) are
unchanged, and the server is the same when `Execute` left the state as it
was. -/
theorem C13_failures_recovered (lay : Layout) (s : Server σ) (message id : Json)
    (method : String) (rest : List (Option Json))
    (hm : Json.field? message "method" = some (Json.string method))
    (hid : Json.field? message "id" = some id)
    (hp : starts_with method "notifications/" = false) :
    (S_SWITCH method ≠ S_CASE "initialize" → S_SWITCH method ≠ S_CASE "tools/list" →
      S_SWITCH method ≠ S_CASE "tools/call" →
      Server.Run lay s (some message :: rest) =
        ⟨(Server.Run lay s rest).server,
          Event.Send (methodNotFound id) :: (Server.Run lay s rest).events,
          (Server.Run lay s rest).result⟩) ∧
    (method = "tools/call" → ∀ params name,
      Json.field? message "params" = some params →
      Json.field? params "name" = some (Json.string name) →
      name ∉ s.m_tools.map Prod.fst →
      Server.Run lay s (some message :: rest) =
        ⟨(Server.Run lay s rest).server,
          Event.Send (methodNotFound id) :: (Server.Run lay s rest).events,
          (Server.Run lay s rest).result⟩) ∧
    (method = "tools/call" → ∀ params name tool c m,
      Json.field? message "params" = some params →
      Json.field? params "name" = some (Json.string name) →
      Server.find s.m_tools name = some tool →
      (tool.Execute tool.state params).1 = Tool.Error c m →
      ∃ s1 : Server σ,
        s1 = { s with m_tools := (Server.store s.m_tools name
            { tool with state := (tool.Execute tool.state params).2 }) } ∧
        Server.sameRegistry s s1 ∧
        ((tool.Execute tool.state params).2 = tool.state → s1 = s) ∧
        Server.Run lay s (some message :: rest) =
          ⟨(Server.Run lay s1 rest).server,
            Event.Execute name params ::
              Event.Send (Json.object [("error", Json.object
                  [("code", Json.number c), ("message", Json.string m)]),
                ("id", id), ("jsonrpc", Json.string "2.0")]) ::
              (Server.Run lay s1 rest).events,
            (Server.Run lay s1 rest).result⟩) := by
  have ht := Server.turn_request lay s message method hm hp
  refine ⟨?_, ?_, ?_⟩
  · intro h1 h2 h3
    rw [Server.Run_cons_ok lay s s (some message) rest [Event.Send (methodNotFound id)]
      (by rw [ht, Server.HandleRequest_default lay s message method id hm hid h1 h2 h3])]
    rfl
  · intro hcall params name hpar hn hu
    subst hcall
    rw [Server.Run_cons_ok lay s s (some message) rest [Event.Send (methodNotFound id)]
      (by rw [ht, Server.HandleRequest_unknown_tool lay s message params id name hm hid hpar
        hn hu])]
    rfl
  · intro hcall params name tool c m hpar hn hf he
    subst hcall
    refine ⟨_, rfl, ⟨rfl, rfl, rfl, ?_⟩, ?_, ?_⟩
    · exact (Server.store_face s.m_tools name tool
        { tool with state := (tool.Execute tool.state params).2 } hf rfl).symm
    · intro hst
      rw [hst]
      have e : ({ tool with state := tool.state } : Tool σ) = tool := by cases tool; rfl
      rw [e, Server.store_same s.m_tools name tool hf]
    · rw [Server.Run_cons_ok lay s _ (some message) rest _
        (by rw [ht, Server.HandleRequest_tool_error lay s message params id name tool c m hm hid
          hpar hn hf he])]
      rfl

/-- C13 (witness): on the registry holding `echo`, a request with the unknown
method "ping", a `tools/call` of the unregistered "missing" and a `tools/call`
of `echo` without text are each answered with an error, and the `tools/list`
request that follows is handled. -/
theorem C13_failures_recovered_witness :
    Server.Run oldestFirst demoEcho
        [some (request (Json.number 1) "ping"), some (request (Json.number 2) "tools/list")] =
      ⟨(Server.Run oldestFirst demoEcho [some (request (Json.number 2) "tools/list")]).server,
        Event.Send (methodNotFound (Json.number 1)) ::
          (Server.Run oldestFirst demoEcho [some (request (Json.number 2) "tools/list")]).events,
        (Server.Run oldestFirst demoEcho [some (request (Json.number 2) "tools/list")]).result⟩ ∧
    Server.Run oldestFirst demoEcho
        [some (callOf (Json.number 1) (Json.string "missing")),
         some (request (Json.number 2) "tools/list")] =
      ⟨(Server.Run oldestFirst demoEcho [some (request (Json.number 2) "tools/list")]).server,
        Event.Send (methodNotFound (Json.number 1)) ::
          (Server.Run oldestFirst demoEcho [some (request (Json.number 2) "tools/list")]).events,
        (Server.Run oldestFirst demoEcho [some (request (Json.number 2) "tools/list")]).result⟩ ∧
    ∃ s1 : Server Nat,
      s1 = { demoEcho with m_tools := (Server.store demoEcho.m_tools "echo"
          { echo with state := (echo.Execute echo.state
            (Json.object [("name", Json.string "echo")])).2 }) } ∧
      Server.sameRegistry demoEcho s1 ∧
      ((echo.Execute echo.state (Json.object [("name", Json.string "echo")])).2 = echo.state →
        s1 = demoEcho) ∧
      Server.Run oldestFirst demoEcho
          [some (callEchoBare (Json.number 1)), some (request (Json.number 2) "tools/list")] =
        ⟨(Server.Run oldestFirst s1 [some (request (Json.number 2) "tools/list")]).server,
          Event.Execute "echo" (Json.object [("name", Json.string "echo")]) ::
            Event.Send (Json.object [("error", Json.object
                [("code", Json.number 7), ("message", Json.string "no text")]),
              ("id", Json.number 1), ("jsonrpc", Json.string "2.0")]) ::
            (Server.Run oldestFirst s1 [some (request (Json.number 2) "tools/list")]).events,
          (Server.Run oldestFirst s1 [some (request (Json.number 2) "tools/list")]).result⟩ :=
  ⟨(C13_failures_recovered oldestFirst demoEcho (request (Json.number 1) "ping") (Json.number 1)
      "ping" [some (request (Json.number 2) "tools/list")] rfl rfl (by decide)).1
      (by decide) (by decide) (by decide),
   (C13_failures_recovered oldestFirst demoEcho (callOf (Json.number 1) (Json.string "missing"))
      (Json.number 1) "tools/call" [some (request (Json.number 2) "tools/list")] rfl rfl
      (by decide)).2.1 rfl _ "missing" rfl rfl (by decide),
   (C13_failures_recovered oldestFirst demoEcho (callEchoBare (Json.number 1))
      (Json.number 1) "tools/call" [some (request (Json.number 2) "tools/list")] rfl rfl
      (by decide)).2.2 rfl _ "echo" echo 7 "no text" rfl rfl rfl rfl⟩

/-! ## Routing without protocol state -/

theorem Server.Run_single (lay : Layout) (s : Server σ) (x : Option Json) :
    (Server.Run lay s [x]).events = (Server.Run.turn lay s x).events ∧
      (Server.Run lay s [x]).result = (Server.Run.turn lay s x).result := by
  simp only [Server.Run]
  cases hx : (Server.Run.turn lay s x).result with
  | error e => simp
  | ok u => simp

/-- After texts that leave the loop running, one more text is handled as the
server at the start handles it, when the documents the tools return do not
depend on their states. -/
theorem Server.Run_snoc (lay : Layout) (s : Server σ) (p : List (Option Json))
    (x : Option Json) (hst : Server.stateless s)
    (h : (Server.Run lay s p).result = Except.ok ()) :
    (Server.Run lay s (p ++ [x])).events
        = (Server.Run lay s p).events ++ (Server.Run.turn lay s x).events ∧
      (Server.Run lay s (p ++ [x])).result = (Server.Run.turn lay s x).result := by
  obtain ⟨e1, e2⟩ := Server.Run_single lay (Server.Run lay s p).server x
  obtain ⟨c1, c2⟩ := Server.turn_congr lay s (Server.Run lay s p).server x
    (Server.Run_sameRegistry lay s p) hst
  rw [Server.Run_append, h]
  simp only
  rw [e1, e2, c1, c2]
  exact ⟨rfl, rfl⟩

theorem echo_stateless : Server.stateless demoEcho := by
  intro entry he st st1
  have hm : demoEcho.m_tools = [("echo", echo)] := rfl
  rw [hm] at he
  rcases List.mem_cons.mp he with h | h
  · subst h
    refine ⟨?_, rfl, rfl⟩
    intro params
    show (echo.Execute st params).1 = (echo.Execute st1 params).1
    unfold echo
    simp only
    split <;> rfl
  · simp at h

/-- C15 (counterexample): sequences without `notifications/cancelled` that end
in the same `tools/list` request with id 2. On the registry holding `echo` the
request alone is answered, but after a `tools/call` whose `params.name` is a
number, which stops the loop with `type_error`, it is never answered. On the
registry holding `relabel`, whose `Execute` returns the same document on every
call, the request alone is answered with the description "fresh", and after a
`tools/call` of `relabel` with the description "used". -/
theorem C15_counterexample :
    sent (Server.Run oldestFirst demoEcho [some (request (Json.number 2) "tools/list")]).events
      = [Json.object [("id", Json.number 2), ("jsonrpc", Json.string "2.0"),
          ("result", Json.object
            [("tools", Json.array [Server.advertised ("echo", echo)])])]] ∧
    sent (Server.Run oldestFirst demoEcho
        [some (callOf (Json.number 1) (Json.number 7)),
         some (request (Json.number 2) "tools/list")]).events = [] ∧
    (Server.Run oldestFirst demoEcho
        [some (callOf (Json.number 1) (Json.number 7)),
         some (request (Json.number 2) "tools/list")]).result
      = Except.error (Stop.failure (Failure.type_error 302)) ∧
    sent (Server.Run oldestFirst demoRelabel
        [some (request (Json.number 2) "tools/list")]).events
      = [Json.object [("id", Json.number 2), ("jsonrpc", Json.string "2.0"),
          ("result", Json.object [("tools", Json.array
            [Json.object [("description", Json.string "fresh"),
              ("inputSchema", Json.object [("type", Json.string "object")]),
              ("name", Json.string "relabel")]])])]] ∧
    sent (Server.Run oldestFirst demoRelabel
        [some (callOf (Json.number 1) (Json.string "relabel")),
         some (request (Json.number 2) "tools/list")]).events
      = [Json.object [("id", Json.number 1), ("jsonrpc", Json.string "2.0"),
          ("result", Json.object [("content", Json.array
            [Json.object [("text", Json.string "ok"), ("type", Json.string "text")]])])],
         Json.object [("id", Json.number 2), ("jsonrpc", Json.string "2.0"),
          ("result", Json.object [("tools", Json.array
            [Json.object [("description", Json.string "used"),
              ("inputSchema", Json.object [("type", Json.string "object")]),
              ("name", Json.string "relabel")]])])]] := by
  refine ⟨rfl, rfl, rfl, rfl, rfl⟩

/-- C15 (amended): for a server whose tools show nothing that depends on their
state (the document `Execute` returns depends on `params` alone, `Description()`
and `InputSchema()` are the same in every state), after any two sequences of
texts that leave the loop running the same last message is handled alike: the
calls made for it, and so the response sent, and the way its turn ends are those
of the server at the start on that message alone. -/
theorem C15_stateless_routing (lay : Layout) (s : Server σ) (p1 p2 : List (Option Json))
    (message : Json) (hst : Server.stateless s)
    (h1 : (Server.Run lay s p1).result = Except.ok ())
    (h2 : (Server.Run lay s p2).result = Except.ok ()) :
    (Server.Run lay s (p1 ++ [some message])).events
      = (Server.Run lay s p1).events ++ (Server.Run.turn lay s (some message)).events ∧
    (Server.Run lay s (p2 ++ [some message])).events
      = (Server.Run lay s p2).events ++ (Server.Run.turn lay s (some message)).events ∧
    sent (Server.Run lay s (p1 ++ [some message])).events
      = sent (Server.Run lay s p1).events ++
          sent (Server.Run.turn lay s (some message)).events ∧
    sent (Server.Run lay s (p2 ++ [some message])).events
      = sent (Server.Run lay s p2).events ++
          sent (Server.Run.turn lay s (some message)).events ∧
    (Server.Run lay s (p1 ++ [some message])).result
      = (Server.Run lay s (p2 ++ [some message])).result := by
  obtain ⟨a1, a2⟩ := Server.Run_snoc lay s p1 (some message) hst h1
  obtain ⟨b1, b2⟩ := Server.Run_snoc lay s p2 (some message) hst h2
  refine ⟨a1, b1, ?_, ?_, ?_⟩
  · rw [a1, sent_append]
  · rw [b1, sent_append]
  · rw [a2, b2]

/-- C15 (witness): the `tools/call` of `echo` with id 4 is answered alike at the
start and after an `initialize` request. -/
theorem C15_stateless_routing_witness :
    sent (Server.Run oldestFirst demoEcho ([] ++ [some (callEcho (Json.number 4))])).events
      = sent (Server.Run oldestFirst demoEcho []).events ++
          sent (Server.Run.turn oldestFirst demoEcho (some (callEcho (Json.number 4)))).events ∧
    sent (Server.Run oldestFirst demoEcho
        ([some (request (Json.number 1) "initialize")] ++
          [some (callEcho (Json.number 4))])).events
      = sent (Server.Run oldestFirst demoEcho
          [some (request (Json.number 1) "initialize")]).events ++
          sent (Server.Run.turn oldestFirst demoEcho (some (callEcho (Json.number 4)))).events :=
  ⟨(C15_stateless_routing oldestFirst demoEcho []
      [some (request (Json.number 1) "initialize")] (callEcho (Json.number 4))
      echo_stateless rfl rfl).2.2.1,
   (C15_stateless_routing oldestFirst demoEcho []
      [some (request (Json.number 1) "initialize")] (callEcho (Json.number 4))
      echo_stateless rfl rfl).2.2.2.1⟩

end claims

end HelloMCP
